import Mathlib

/-!
Verification development for the smaps-container-exporter repository.

The development shallowly embeds the two core components of the program:

* the smaps report parser (smaps.go, function ParseSmaps together with the
  regular expressions headerRe and kvRe and the struct SmapsMapping), and
* the Kubernetes process selector (kubernetes.go, function GetHostPIDs with
  its helpers getContainersForPod, getInitPIDFromContainerd, getPIDNamespace,
  findPIDsInPIDNamespace, pidNamespaceMatches and commMatches), and
* the metrics emission contract (metrics.go gauge vector definitions and the
  setMetrics function of the collection pipeline).

Machine integers are modelled as Int with explicit wrapping at 64 bits where
the Go program performs int64 arithmetic.  Input that the Go program reads
from an io.Reader is modelled as the list of scanned lines; panics of the Go
runtime (nil map entry dereference) are modelled as an error value.
-/

/-! ## Character classes of the regular expressions in smaps.go

headerRe is `^([0-9a-fA-F]+-[0-9a-fA-F]+) ([rwxps-]{4}) ([0-9a-fA-F]+) ([0-9a-fA-F:]+) (\d+)(?:\s+(.*))?$`
and kvRe is `^([A-Za-z_]+):\s+(\d+) kB` (note: kvRe has no end anchor).
-/

/-- Character class `[0-9a-fA-F]` of headerRe. -/
def isHexChar (c : Char) : Bool :=
  ('0' ≤ c && c ≤ '9') || ('a' ≤ c && c ≤ 'f') || ('A' ≤ c && c ≤ 'F')

/-- Character class `[rwxps-]` of headerRe. -/
def isPermChar (c : Char) : Bool :=
  c = 'r' || c = 'w' || c = 'x' || c = 'p' || c = 's' || c = '-'

/-- Character class `\d` of both regular expressions. -/
def isDigitChar (c : Char) : Bool := '0' ≤ c && c ≤ '9'

/-- Character class `\s` of Go regexp, which is `[\t\n\f\r ]`. -/
def isReSpace (c : Char) : Bool :=
  c = ' ' || c = '\t' || c = '\n' || c = '\x0c' || c = '\r'

/-- Character class `[A-Za-z_]` of kvRe. -/
def isWordChar (c : Char) : Bool :=
  ('a' ≤ c && c ≤ 'z') || ('A' ≤ c && c ≤ 'Z') || c = '_'

/-- Value of a run of decimal digit characters. -/
def natOfDigits (ds : List Char) : Nat :=
  ds.foldl (fun a c => 10 * a + (c.toNat - 48)) 0

/-- Greedy match of one-or-more characters of a class, as in the regular
expression `C+`: returns the maximal nonempty run and the remainder. -/
def takeWhile1 (p : Char → Bool) (cs : List Char) : Option (List Char × List Char) :=
  let s := cs.span p
  if s.1.isEmpty then none else some s

/-- Consume one expected literal character. -/
def expectChar (c : Char) : List Char → Option (List Char)
  | x :: r => if x = c then some r else none
  | [] => none

/-- The capture groups of headerRe.  Group six (the trailing path) is the
empty string both when the optional group is absent and when it captures the
empty string, exactly as Go regexp FindStringSubmatch reports it to the
calling code. -/
structure HeaderGroups where
  addrRange : String
  perms : String
  offset : String
  dev : String
  inode : String
  path : String
deriving DecidableEq

/-- Matching of headerRe against a whole line, as performed by
headerRe.FindStringSubmatch in ParseSmaps.  Every quantified subexpression of
headerRe is followed by a literal outside its character class, so greedy
matching is deterministic and the regular expression is faithfully rendered by
maximal-munch scanning.  The trailing `(?:\s+(.*))?$` part accepts either end
of line directly after the inode digits, or one-or-more `\s` characters
followed by the captured rest of the line; `.` does not match a newline, so a
newline in the captured rest makes the whole match fail. -/
def headerMatch (line : String) : Option HeaderGroups := do
  let cs := line.toList
  let (a1, r1) ← takeWhile1 isHexChar cs
  let r2 ← expectChar '-' r1
  let (a2, r3) ← takeWhile1 isHexChar r2
  let r4 ← expectChar ' ' r3
  match r4 with
  | p1 :: p2 :: p3 :: p4 :: r5 =>
    if isPermChar p1 && isPermChar p2 && isPermChar p3 && isPermChar p4 then do
      let r6 ← expectChar ' ' r5
      let (off, r7) ← takeWhile1 isHexChar r6
      let r8 ← expectChar ' ' r7
      let (dev, r9) ← takeWhile1 (fun c => isHexChar c || c = ':') r8
      let r10 ← expectChar ' ' r9
      let (ino, r11) ← takeWhile1 isDigitChar r10
      match r11 with
      | [] =>
        pure ⟨String.mk (a1 ++ '-' :: a2), String.mk [p1, p2, p3, p4],
              String.mk off, String.mk dev, String.mk ino, ""⟩
      | c :: _ =>
        if isReSpace c then
          let r12 := (r11.span isReSpace).2
          if r12.contains '\n' then none
          else
            pure ⟨String.mk (a1 ++ '-' :: a2), String.mk [p1, p2, p3, p4],
                  String.mk off, String.mk dev, String.mk ino, String.mk r12⟩
        else none
    else none
  | _ => none

/-- Matching of kvRe against the start of a line, as performed by
kvRe.FindStringSubmatch in ParseSmaps.  kvRe is anchored at the start but not
at the end, so anything may follow the literal ` kB`; in particular a unit
written `kBytes` is accepted. -/
def kvMatch (line : String) : Option (String × Nat) := do
  let (name, r1) ← takeWhile1 isWordChar line.toList
  let r2 ← expectChar ':' r1
  let (_, r3) ← takeWhile1 isReSpace r2
  let (ds, r4) ← takeWhile1 isDigitChar r3
  match r4 with
  | ' ' :: 'k' :: 'B' :: _ => pure (String.mk name, natOfDigits ds)
  | _ => none

/-- Character test of Go unicode.IsSpace, used by strings.TrimSpace: the
White_Space code points, written by code point to keep the source ASCII:
TAB, LF, VT, FF, CR, SPACE, NEL, NBSP, OGHAM SPACE MARK, EN QUAD through
HAIR SPACE, LINE SEPARATOR, PARAGRAPH SEPARATOR, NARROW NBSP, MEDIUM
MATHEMATICAL SPACE and IDEOGRAPHIC SPACE. -/
def isGoUnicodeSpace (c : Char) : Bool :=
  let n := c.toNat
  (9 ≤ n && n ≤ 13) || n = 32 || n = 133 || n = 160 || n = 5760 ||
  (8192 ≤ n && n ≤ 8202) || n = 8232 || n = 8233 || n = 8239 || n = 8287 || n = 12288

/-- Go strings.TrimSpace: remove leading and trailing unicode white space. -/
def trimSpace (s : String) : String :=
  String.mk (((s.toList.dropWhile isGoUnicodeSpace).reverse.dropWhile isGoUnicodeSpace).reverse)

/-! ## The SmapsMapping record and 64-bit integer arithmetic -/

/-- The memory mapping record of smaps.go (struct SmapsMapping).  All
key-value fields hold byte counts as Go int64 values, modelled as Int kept in
the signed 64-bit range by explicit wrapping. -/
structure SmapsMapping where
  AddrRange : String
  Perms : String
  Offset : String
  Dev : String
  Inode : String
  Path : String
  SizeBytes : Int
  RssBytes : Int
  PssBytes : Int
  PssDirtyBytes : Int
  SharedCleanBytes : Int
  SharedDirtyBytes : Int
  PrivateCleanBytes : Int
  PrivateDirtyBytes : Int
  ReferencedBytes : Int
  AnonymousBytes : Int
  LazyFreeBytes : Int
  AnonHugePagesBytes : Int
  ShmemPmdMappedBytes : Int
  SharedHugetlbBytes : Int
  PrivateHugetlbBytes : Int
  SwapBytes : Int
  SwapPssBytes : Int
  KernelPageSizeBytes : Int
  MMUPageSizeBytes : Int
  LockedBytes : Int
deriving DecidableEq

/-- The twenty key-value fields of SmapsMapping, as an enumeration.  One
constructor per case of the switch statement in ParseSmaps. -/
inductive SmapsField where
  | size | kernelPageSize | mmuPageSize | rss | pss | pssDirty
  | sharedClean | sharedDirty | privateClean | privateDirty
  | referenced | anonymous | lazyFree | anonHugePages | shmemPmdMapped
  | sharedHugetlb | privateHugetlb | swap | swapPss | locked
deriving DecidableEq, Fintype

/-- The key strings recognized by the switch statement in ParseSmaps, in
source order; any other key falls through the switch without effect. -/
def fieldOfKey : String → Option SmapsField
  | "Size" => some .size
  | "KernelPageSize" => some .kernelPageSize
  | "MMUPageSize" => some .mmuPageSize
  | "Rss" => some .rss
  | "Pss" => some .pss
  | "Pss_Dirty" => some .pssDirty
  | "Shared_Clean" => some .sharedClean
  | "Shared_Dirty" => some .sharedDirty
  | "Private_Clean" => some .privateClean
  | "Private_Dirty" => some .privateDirty
  | "Referenced" => some .referenced
  | "Anonymous" => some .anonymous
  | "LazyFree" => some .lazyFree
  | "AnonHugePages" => some .anonHugePages
  | "ShmemPmdMapped" => some .shmemPmdMapped
  | "Shared_Hugetlb" => some .sharedHugetlb
  | "Private_Hugetlb" => some .privateHugetlb
  | "Swap" => some .swap
  | "SwapPss" => some .swapPss
  | "Locked" => some .locked
  | _ => none

/-- Projection of a key-value field of the record. -/
def getField (m : SmapsMapping) : SmapsField → Int
  | .size => m.SizeBytes
  | .kernelPageSize => m.KernelPageSizeBytes
  | .mmuPageSize => m.MMUPageSizeBytes
  | .rss => m.RssBytes
  | .pss => m.PssBytes
  | .pssDirty => m.PssDirtyBytes
  | .sharedClean => m.SharedCleanBytes
  | .sharedDirty => m.SharedDirtyBytes
  | .privateClean => m.PrivateCleanBytes
  | .privateDirty => m.PrivateDirtyBytes
  | .referenced => m.ReferencedBytes
  | .anonymous => m.AnonymousBytes
  | .lazyFree => m.LazyFreeBytes
  | .anonHugePages => m.AnonHugePagesBytes
  | .shmemPmdMapped => m.ShmemPmdMappedBytes
  | .sharedHugetlb => m.SharedHugetlbBytes
  | .privateHugetlb => m.PrivateHugetlbBytes
  | .swap => m.SwapBytes
  | .swapPss => m.SwapPssBytes
  | .locked => m.LockedBytes

/-- Largest signed 64-bit integer. -/
def int64Max : Int := 9223372036854775807

/-- Reduction of an Int into the signed 64-bit range; Go int64 arithmetic
wraps around on overflow. -/
def wrap64 (x : Int) : Int := (x + 2 ^ 63) % 2 ^ 64 - 2 ^ 63

/-- Go strconv.ParseInt with bit size 64 applied to a string of decimal
digits: ParseSmaps discards the error, and on range error ParseInt returns
the largest 64-bit value, so an oversized literal is clamped to int64Max. -/
def parseInt64 (n : Nat) : Int :=
  if (n : Int) ≤ int64Max then (n : Int) else int64Max

/-- The `mapping.FieldBytes += valBytes` statement of the switch arm for the
given field, with Go int64 wraparound on the addition. -/
def addToField (m : SmapsMapping) (f : SmapsField) (v : Int) : SmapsMapping :=
  match f with
  | .size => { m with SizeBytes := wrap64 (m.SizeBytes + v) }
  | .kernelPageSize => { m with KernelPageSizeBytes := wrap64 (m.KernelPageSizeBytes + v) }
  | .mmuPageSize => { m with MMUPageSizeBytes := wrap64 (m.MMUPageSizeBytes + v) }
  | .rss => { m with RssBytes := wrap64 (m.RssBytes + v) }
  | .pss => { m with PssBytes := wrap64 (m.PssBytes + v) }
  | .pssDirty => { m with PssDirtyBytes := wrap64 (m.PssDirtyBytes + v) }
  | .sharedClean => { m with SharedCleanBytes := wrap64 (m.SharedCleanBytes + v) }
  | .sharedDirty => { m with SharedDirtyBytes := wrap64 (m.SharedDirtyBytes + v) }
  | .privateClean => { m with PrivateCleanBytes := wrap64 (m.PrivateCleanBytes + v) }
  | .privateDirty => { m with PrivateDirtyBytes := wrap64 (m.PrivateDirtyBytes + v) }
  | .referenced => { m with ReferencedBytes := wrap64 (m.ReferencedBytes + v) }
  | .anonymous => { m with AnonymousBytes := wrap64 (m.AnonymousBytes + v) }
  | .lazyFree => { m with LazyFreeBytes := wrap64 (m.LazyFreeBytes + v) }
  | .anonHugePages => { m with AnonHugePagesBytes := wrap64 (m.AnonHugePagesBytes + v) }
  | .shmemPmdMapped => { m with ShmemPmdMappedBytes := wrap64 (m.ShmemPmdMappedBytes + v) }
  | .sharedHugetlb => { m with SharedHugetlbBytes := wrap64 (m.SharedHugetlbBytes + v) }
  | .privateHugetlb => { m with PrivateHugetlbBytes := wrap64 (m.PrivateHugetlbBytes + v) }
  | .swap => { m with SwapBytes := wrap64 (m.SwapBytes + v) }
  | .swapPss => { m with SwapPssBytes := wrap64 (m.SwapPssBytes + v) }
  | .locked => { m with LockedBytes := wrap64 (m.LockedBytes + v) }

/-- The fresh record built by ParseSmaps from the capture groups of a header
line: the permission string defaults to four dashes when empty (dead code,
since the group is always four characters), and an absent or empty trailing
path is replaced by the anonymous marker before trimming. -/
def mkHeaderMapping (h : HeaderGroups) : SmapsMapping :=
  let perms := if h.perms = "" then "----" else h.perms
  let path := if h.path = "" then "[anon]" else h.path
  { AddrRange := h.addrRange, Perms := perms, Offset := h.offset,
    Dev := h.dev, Inode := h.inode, Path := trimSpace path,
    SizeBytes := 0, RssBytes := 0, PssBytes := 0, PssDirtyBytes := 0,
    SharedCleanBytes := 0, SharedDirtyBytes := 0, PrivateCleanBytes := 0,
    PrivateDirtyBytes := 0, ReferencedBytes := 0, AnonymousBytes := 0,
    LazyFreeBytes := 0, AnonHugePagesBytes := 0, ShmemPmdMappedBytes := 0,
    SharedHugetlbBytes := 0, PrivateHugetlbBytes := 0, SwapBytes := 0,
    SwapPssBytes := 0, KernelPageSizeBytes := 0, MMUPageSizeBytes := 0,
    LockedBytes := 0 }

/-! ## The parser state and loop of ParseSmaps

The Go map aggregatedSmaps is modelled as an association list in insertion
order, and the pointer variable `mapping` into the current aggregated record
is modelled by the key of that record (the aggregation key is the path).  A
recognized key-value line arriving while `mapping` is still nil dereferences
a nil pointer in Go; that panic is modelled by the error value below. -/

/-- Lookup in the association list modelling the Go map aggregatedSmaps. -/
def findRec : List (String × SmapsMapping) → String → Option SmapsMapping
  | [], _ => none
  | (k, m) :: t, key => if k = key then some m else findRec t key

/-- Update of the record stored under an existing key; models mutation
through the `mapping` pointer. -/
def updateRec : List (String × SmapsMapping) → String → (SmapsMapping → SmapsMapping) →
    List (String × SmapsMapping)
  | [], _, _ => []
  | (k, m) :: t, key, g => if k = key then (k, g m) :: t else (k, m) :: updateRec t key g

/-- State of the scanning loop of ParseSmaps. -/
structure ParseState where
  agg : List (String × SmapsMapping)
  current : Option String
deriving DecidableEq

/-- Initial loop state: empty map, nil `mapping` pointer. -/
def initialState : ParseState := ⟨[], none⟩

/-- Runtime failure of the loop: nil pointer dereference of `mapping`. -/
inductive ParseErr where
  | nilDeref
deriving DecidableEq

/-- One iteration of the scanning loop of ParseSmaps for one line: empty
lines are skipped; a header line selects or creates the aggregated record
for its path; a key-value line with a recognized key adds the value times
1024 (as int64 arithmetic) to the current record, dereferencing the nil
`mapping` pointer if no header line has been seen; all other lines are
skipped. -/
def stepLine (st : ParseState) (line : String) : Except ParseErr ParseState :=
  if line = "" then .ok st
  else
    match headerMatch line with
    | some h =>
      let tmp := mkHeaderMapping h
      let key := tmp.Path
      match findRec st.agg key with
      | some _ => .ok { st with current := some key }
      | none => .ok ⟨st.agg ++ [(key, tmp)], some key⟩
    | none =>
      match kvMatch line with
      | some (k, v) =>
        match fieldOfKey k with
        | some f =>
          match st.current with
          | some ckey =>
            .ok { st with
                  agg := updateRec st.agg ckey
                    (fun m => addToField m f (wrap64 (parseInt64 v * 1024))) }
          | none => .error .nilDeref
        | none => .ok st
      | none => .ok st

/-- The scanning loop over all lines. -/
def runLines (st : ParseState) : List String → Except ParseErr ParseState
  | [] => .ok st
  | l :: ls =>
    match stepLine st l with
    | .ok st1 => runLines st1 ls
    | .error e => .error e

/-- ParseSmaps of smaps.go, over the list of scanned lines of the report.
The resulting slice is the aggregated records; the association list keeps
insertion order (the Go map iteration order is unspecified, and all verified
properties are order independent). -/
def ParseSmaps (lines : List String) : Except ParseErr (List SmapsMapping) :=
  match runLines initialState lines with
  | .ok st => .ok (st.agg.map Prod.snd)
  | .error e => .error e

/-! ## Reference functions describing one parse

These definitions restate, directly over the input lines, which header line
is current at each point of the scan, which header line is the first one for
a given path, and which recognized key-value lines are attributed to a given
path and field.  They use the same line recognizers as the parser itself. -/

/-- The aggregation key a header line produces, when the line is a header. -/
def headerKeyOf (line : String) : Option String :=
  (headerMatch line).map (fun h => (mkHeaderMapping h).Path)

/-- The current aggregation key after scanning the given lines, starting
from the given current key. -/
def curAfter (cur : Option String) : List String → Option String
  | [] => cur
  | l :: ls =>
    match headerMatch l with
    | some h => curAfter (some ((mkHeaderMapping h).Path)) ls
    | none => curAfter cur ls

/-- Aggregation keys of all header lines of the input, in order. -/
def headerPathsOf (lines : List String) : List String :=
  lines.filterMap headerKeyOf

/-- The capture groups of the first header line whose aggregation key is the
given path. -/
def firstHeaderFor (p : String) : List String → Option HeaderGroups
  | [] => none
  | l :: ls =>
    match headerMatch l with
    | some h => if (mkHeaderMapping h).Path = p then some h else firstHeaderFor p ls
    | none => firstHeaderFor p ls

/-- The decimal values of the recognized key-value lines attributed (by the
most recent header line) to the given path and field, in order of
appearance, starting with the given current key. -/
def attrVals (p : String) (f : SmapsField) (cur : Option String) : List String → List Nat
  | [] => []
  | l :: ls =>
    match headerMatch l with
    | some h => attrVals p f (some ((mkHeaderMapping h).Path)) ls
    | none =>
      match kvMatch l with
      | some (k, v) =>
        match fieldOfKey k with
        | some f1 =>
          if cur = some p ∧ f1 = f then v :: attrVals p f cur ls
          else attrVals p f cur ls
        | none => attrVals p f cur ls
      | none => attrVals p f cur ls

/-- Total number of bytes named by all recognized key-value lines of the
input; a bound on every per-path per-field attributed total. -/
def kvTotal : List String → Nat
  | [] => 0
  | l :: ls =>
    match headerMatch l with
    | some _ => kvTotal ls
    | none =>
      match kvMatch l with
      | some (_, v) => 1024 * v + kvTotal ls
      | none => kvTotal ls

/-- Byte total of a list of attributed decimal kilobyte values. -/
def sumBytes (vs : List Nat) : Nat := (vs.map (fun v => 1024 * v)).sum

/-- The byte total the specification predicts for a path and field. -/
def attrTotal (lines : List String) (p : String) (f : SmapsField) : Nat :=
  sumBytes (attrVals p f none lines)

/-- One accumulation step of the parser on a field value, in exact int64
arithmetic: clamp the parsed literal, multiply by 1024 with wraparound, add
with wraparound. -/
def wAdd (acc : Int) (v : Nat) : Int := wrap64 (acc + wrap64 (parseInt64 v * 1024))

/-- Accumulation of a list of attributed values in int64 arithmetic. -/
def wFold (acc : Int) (vs : List Nat) : Int := vs.foldl wAdd acc

/-! ## Lemmas about the association list -/

theorem findRec_eq_none_iff (agg : List (String × SmapsMapping)) (k : String) :
    findRec agg k = none ↔ k ∉ agg.map Prod.fst := by
  induction agg with
  | nil => simp [findRec]
  | cons km t ih =>
    obtain ⟨k1, m1⟩ := km
    by_cases h : k1 = k
    · subst h
      simp [findRec]
    · simp [findRec, h, Ne.symm h, ih]

theorem findRec_isSome_iff (agg : List (String × SmapsMapping)) (k : String) :
    (findRec agg k).isSome ↔ k ∈ agg.map Prod.fst := by
  rcases hf : findRec agg k with _ | m
  · simpa [hf] using (findRec_eq_none_iff agg k).1 hf
  · simp only [Option.isSome_some, true_iff]
    by_contra hmem
    rw [← findRec_eq_none_iff agg k] at hmem
    rw [hf] at hmem
    exact Option.noConfusion hmem

theorem findRec_append (agg1 agg2 : List (String × SmapsMapping)) (k : String) :
    findRec (agg1 ++ agg2) k =
      match findRec agg1 k with
      | some m => some m
      | none => findRec agg2 k := by
  induction agg1 with
  | nil => simp [findRec]
  | cons km t ih =>
    obtain ⟨k1, m1⟩ := km
    by_cases h : k1 = k <;> simp [findRec, h, ih]

theorem findRec_singleton (k : String) (m : SmapsMapping) :
    findRec [(k, m)] k = some m := by
  simp [findRec]

theorem findRec_of_mem_nodup (agg : List (String × SmapsMapping)) (k : String)
    (m : SmapsMapping) (hnd : (agg.map Prod.fst).Nodup) (hmem : (k, m) ∈ agg) :
    findRec agg k = some m := by
  induction agg with
  | nil => simp at hmem
  | cons km t ih =>
    obtain ⟨k1, m1⟩ := km
    simp only [List.map_cons, List.nodup_cons] at hnd
    rcases List.mem_cons.1 hmem with he | ht
    · injection he with he1 he2
      subst he1
      subst he2
      simp [findRec]
    · have hne : k1 ≠ k := by
        intro he
        refine hnd.1 ?_
        rw [he]
        exact List.mem_map.2 ⟨(k, m), ht, rfl⟩
      simp [findRec, hne, ih hnd.2 ht]

theorem mem_of_findRec (agg : List (String × SmapsMapping)) (k : String)
    (m : SmapsMapping) (h : findRec agg k = some m) : (k, m) ∈ agg := by
  induction agg with
  | nil => simp [findRec] at h
  | cons km t ih =>
    obtain ⟨k1, m1⟩ := km
    by_cases he : k1 = k
    · subst he
      simp [findRec] at h
      simp [h]
    · simp [findRec, he] at h
      exact List.mem_cons_of_mem _ (ih h)

theorem keys_updateRec (agg : List (String × SmapsMapping)) (k : String)
    (g : SmapsMapping → SmapsMapping) :
    (updateRec agg k g).map Prod.fst = agg.map Prod.fst := by
  induction agg with
  | nil => simp [updateRec]
  | cons km t ih =>
    obtain ⟨k1, m1⟩ := km
    by_cases h : k1 = k <;> simp [updateRec, h, ih]

theorem findRec_updateRec_self (agg : List (String × SmapsMapping)) (k : String)
    (g : SmapsMapping → SmapsMapping) :
    findRec (updateRec agg k g) k = (findRec agg k).map g := by
  induction agg with
  | nil => simp [updateRec, findRec]
  | cons km t ih =>
    obtain ⟨k1, m1⟩ := km
    by_cases h : k1 = k <;> simp [updateRec, findRec, h, ih]

theorem findRec_updateRec_other (agg : List (String × SmapsMapping)) (k k2 : String)
    (g : SmapsMapping → SmapsMapping) (hne : k2 ≠ k) :
    findRec (updateRec agg k g) k2 = findRec agg k2 := by
  induction agg with
  | nil => simp [updateRec, findRec]
  | cons km t ih =>
    obtain ⟨k1, m1⟩ := km
    by_cases h : k1 = k
    · subst h
      simp [updateRec, findRec, Ne.symm hne]
    · by_cases h2 : k1 = k2 <;> simp [updateRec, findRec, h, h2, hne, ih]

theorem mem_updateRec (agg : List (String × SmapsMapping)) (k : String)
    (g : SmapsMapping → SmapsMapping) (km : String × SmapsMapping)
    (hmem : km ∈ updateRec agg k g) :
    ∃ km0 ∈ agg, km.1 = km0.1 ∧ (km.2 = km0.2 ∨ km.2 = g km0.2) := by
  induction agg with
  | nil => simp [updateRec] at hmem
  | cons km1 t ih =>
    obtain ⟨k1, m1⟩ := km1
    by_cases h : k1 = k
    · subst h
      simp only [updateRec, if_pos rfl] at hmem
      rcases List.mem_cons.1 hmem with he | ht
      · exact ⟨(k1, m1), List.mem_cons_self .., by simp [he]⟩
      · exact ⟨km, List.mem_cons_of_mem _ ht, rfl, Or.inl rfl⟩
    · simp only [updateRec, if_neg h] at hmem
      rcases List.mem_cons.1 hmem with he | ht
      · exact ⟨(k1, m1), List.mem_cons_self .., by simp [he]⟩
      · obtain ⟨km0, hkm0, h1, h2⟩ := ih ht
        exact ⟨km0, List.mem_cons_of_mem _ hkm0, h1, h2⟩

/-! ## Lemmas about fields and int64 arithmetic -/

theorem getField_addToField_self (m : SmapsMapping) (f : SmapsField) (v : Int) :
    getField (addToField m f v) f = wrap64 (getField m f + v) := by
  cases f <;> rfl

theorem getField_addToField_other (m : SmapsMapping) (f g : SmapsField) (v : Int)
    (hne : g ≠ f) : getField (addToField m f v) g = getField m g := by
  cases f <;> cases g <;> first | rfl | exact absurd rfl hne

theorem addToField_meta (m : SmapsMapping) (f : SmapsField) (v : Int) :
    (addToField m f v).AddrRange = m.AddrRange ∧ (addToField m f v).Perms = m.Perms ∧
    (addToField m f v).Offset = m.Offset ∧ (addToField m f v).Dev = m.Dev ∧
    (addToField m f v).Inode = m.Inode ∧ (addToField m f v).Path = m.Path := by
  cases f <;> exact ⟨rfl, rfl, rfl, rfl, rfl, rfl⟩

theorem getField_mkHeaderMapping (h : HeaderGroups) (f : SmapsField) :
    getField (mkHeaderMapping h) f = 0 := by
  cases f <;> rfl

theorem wrap64_eq_self (x : Int) (h1 : -(2 ^ 63) ≤ x) (h2 : x < 2 ^ 63) :
    wrap64 x = x := by
  unfold wrap64
  omega

theorem wFold_append (acc : Int) (vs1 vs2 : List Nat) :
    wFold acc (vs1 ++ vs2) = wFold (wFold acc vs1) vs2 := by
  unfold wFold
  exact List.foldl_append ..

theorem wFold_eq_sumBytes (vs : List Nat) (acc : Int) (h0 : 0 ≤ acc)
    (hb : acc + (sumBytes vs : Int) < 2 ^ 63) :
    wFold acc vs = acc + (sumBytes vs : Int) := by
  induction vs generalizing acc with
  | nil => simp [wFold, sumBytes]
  | cons v vs ih =>
    have hsum : (sumBytes (v :: vs) : Int) = 1024 * (v : Int) + (sumBytes vs : Int) := by
      simp [sumBytes]
    rw [hsum] at hb
    have hvsnn : (0 : Int) ≤ (sumBytes vs : Int) := Int.ofNat_nonneg _
    have hvnn : (0 : Int) ≤ 1024 * (v : Int) := by positivity
    have hvlt : 1024 * (v : Int) < 2 ^ 63 := by omega
    have hclamp : parseInt64 v = (v : Int) := by
      unfold parseInt64 int64Max
      rw [if_pos]
      omega
    have hmul : wrap64 (parseInt64 v * 1024) = 1024 * (v : Int) := by
      rw [hclamp, mul_comm]
      exact wrap64_eq_self _ (by omega) hvlt
    have hadd : wAdd acc v = acc + 1024 * (v : Int) := by
      unfold wAdd
      rw [hmul]
      exact wrap64_eq_self _ (by omega) (by omega)
    have : wFold acc (v :: vs) = wFold (acc + 1024 * (v : Int)) vs := by
      simp [wFold, hadd]
    rw [this, ih (acc + 1024 * (v : Int)) (by omega) (by omega), hsum]
    ring

/-! ## Unfolding lemmas for the reference functions -/

theorem headerMatch_empty : headerMatch "" = none := rfl

theorem kvMatch_empty : kvMatch "" = none := rfl

theorem curAfter_cons_header (cur : Option String) (l : String) (ls : List String)
    (h : HeaderGroups) (hh : headerMatch l = some h) :
    curAfter cur (l :: ls) = curAfter (some ((mkHeaderMapping h).Path)) ls := by
  simp [curAfter, hh]

theorem curAfter_cons_skip (cur : Option String) (l : String) (ls : List String)
    (hh : headerMatch l = none) :
    curAfter cur (l :: ls) = curAfter cur ls := by
  simp [curAfter, hh]

theorem headerPathsOf_cons_header (l : String) (ls : List String)
    (h : HeaderGroups) (hh : headerMatch l = some h) :
    headerPathsOf (l :: ls) = (mkHeaderMapping h).Path :: headerPathsOf ls := by
  simp [headerPathsOf, headerKeyOf, hh]

theorem headerPathsOf_cons_skip (l : String) (ls : List String)
    (hh : headerMatch l = none) :
    headerPathsOf (l :: ls) = headerPathsOf ls := by
  simp [headerPathsOf, headerKeyOf, hh]

theorem firstHeaderFor_cons_header (p : String) (l : String) (ls : List String)
    (h : HeaderGroups) (hh : headerMatch l = some h) :
    firstHeaderFor p (l :: ls) =
      if (mkHeaderMapping h).Path = p then some h else firstHeaderFor p ls := by
  simp [firstHeaderFor, hh]

theorem firstHeaderFor_cons_skip (p : String) (l : String) (ls : List String)
    (hh : headerMatch l = none) :
    firstHeaderFor p (l :: ls) = firstHeaderFor p ls := by
  simp [firstHeaderFor, hh]

theorem attrVals_cons_header (p : String) (f : SmapsField) (cur : Option String)
    (l : String) (ls : List String) (h : HeaderGroups) (hh : headerMatch l = some h) :
    attrVals p f cur (l :: ls) = attrVals p f (some ((mkHeaderMapping h).Path)) ls := by
  simp [attrVals, hh]

theorem attrVals_cons_kv (p : String) (f : SmapsField) (cur : Option String)
    (l : String) (ls : List String) (k : String) (v : Nat) (f1 : SmapsField)
    (hh : headerMatch l = none) (hkv : kvMatch l = some (k, v))
    (hfk : fieldOfKey k = some f1) :
    attrVals p f cur (l :: ls) =
      if cur = some p ∧ f1 = f then v :: attrVals p f cur ls
      else attrVals p f cur ls := by
  simp [attrVals, hh, hkv, hfk]

theorem attrVals_cons_kvunknown (p : String) (f : SmapsField) (cur : Option String)
    (l : String) (ls : List String) (k : String) (v : Nat)
    (hh : headerMatch l = none) (hkv : kvMatch l = some (k, v))
    (hfk : fieldOfKey k = none) :
    attrVals p f cur (l :: ls) = attrVals p f cur ls := by
  simp [attrVals, hh, hkv, hfk]

theorem attrVals_cons_skip (p : String) (f : SmapsField) (cur : Option String)
    (l : String) (ls : List String) (hh : headerMatch l = none)
    (hkv : kvMatch l = none) :
    attrVals p f cur (l :: ls) = attrVals p f cur ls := by
  simp [attrVals, hh, hkv]

/-! ## Case analysis of one loop iteration -/

theorem stepLine_elim (st st1 : ParseState) (l : String)
    (hs : stepLine st l = .ok st1) :
    (∃ h, headerMatch l = some h ∧
       (((findRec st.agg ((mkHeaderMapping h).Path)).isSome ∧
           st1 = ⟨st.agg, some ((mkHeaderMapping h).Path)⟩) ∨
        (findRec st.agg ((mkHeaderMapping h).Path) = none ∧
           st1 = ⟨st.agg ++ [((mkHeaderMapping h).Path, mkHeaderMapping h)],
                  some ((mkHeaderMapping h).Path)⟩))) ∨
    (headerMatch l = none ∧
       ∃ k v f ckey, kvMatch l = some (k, v) ∧ fieldOfKey k = some f ∧
         st.current = some ckey ∧
         st1 = ⟨updateRec st.agg ckey
                  (fun m => addToField m f (wrap64 (parseInt64 v * 1024))),
                st.current⟩) ∨
    (st1 = st ∧ headerMatch l = none ∧
       (kvMatch l = none ∨ ∃ k v, kvMatch l = some (k, v) ∧ fieldOfKey k = none)) := by
  by_cases hl : l = ""
  · subst hl
    simp only [stepLine, reduceIte] at hs
    have hs2 : st1 = st := by
      cases hs
      rfl
    exact Or.inr (Or.inr ⟨hs2, headerMatch_empty, Or.inl kvMatch_empty⟩)
  · rcases hh : headerMatch l with _ | h
    · rcases hkv : kvMatch l with _ | kv
      · simp only [stepLine, if_neg hl, hh, hkv, Except.ok.injEq] at hs
        exact Or.inr (Or.inr ⟨hs.symm, rfl, Or.inl rfl⟩)
      · obtain ⟨k, v⟩ := kv
        rcases hfk : fieldOfKey k with _ | f
        · simp only [stepLine, if_neg hl, hh, hkv, hfk, Except.ok.injEq] at hs
          exact Or.inr (Or.inr ⟨hs.symm, rfl, Or.inr ⟨k, v, rfl, hfk⟩⟩)
        · rcases hc : st.current with _ | ckey
          · simp only [stepLine, if_neg hl, hh, hkv, hfk, hc] at hs
            exact absurd hs (by simp)
          · simp only [stepLine, if_neg hl, hh, hkv, hfk, hc, Except.ok.injEq] at hs
            refine Or.inr (Or.inl ⟨rfl, k, v, f, ckey, rfl, hfk, rfl, ?_⟩)
            rw [← hs]
    · rcases hf : findRec st.agg ((mkHeaderMapping h).Path) with _ | m
      · simp only [stepLine, if_neg hl, hh, hf, Except.ok.injEq] at hs
        refine Or.inl ⟨h, rfl, Or.inr ⟨hf, ?_⟩⟩
        rw [← hs]
      · simp only [stepLine, if_neg hl, hh, hf, Except.ok.injEq] at hs
        refine Or.inl ⟨h, rfl, Or.inl ⟨by simp [hf], ?_⟩⟩
        rw [← hs]

/-! ## The loop invariant of ParseSmaps -/

/-- Invariant of the scanning loop: aggregation keys are distinct, every
stored record carries its key as path, and the current key (the `mapping`
pointer) always denotes a stored record. -/
def StInv (st : ParseState) : Prop :=
  (st.agg.map Prod.fst).Nodup ∧
  (∀ km ∈ st.agg, (Prod.snd km).Path = Prod.fst km) ∧
  (∀ k, st.current = some k → (findRec st.agg k).isSome)

theorem stInv_initial : StInv initialState := by
  refine ⟨by simp [initialState], by simp [initialState], ?_⟩
  intro k hk
  simp [initialState] at hk

theorem findRec_updateRec_isSome (agg : List (String × SmapsMapping)) (k k2 : String)
    (g : SmapsMapping → SmapsMapping) :
    (findRec (updateRec agg k g) k2).isSome = (findRec agg k2).isSome := by
  by_cases he : k2 = k
  · subst he
    rw [findRec_updateRec_self]
    cases findRec agg k2 <;> rfl
  · rw [findRec_updateRec_other agg k k2 g he]

theorem stepLine_inv (st st1 : ParseState) (l : String)
    (hs : stepLine st l = .ok st1) (hinv : StInv st) : StInv st1 := by
  obtain ⟨hnd, hpath, hcur⟩ := hinv
  rcases stepLine_elim st st1 l hs with
    ⟨h, hh, hbr⟩ | ⟨hh, k, v, f, ckey, hkv, hfk, hc, hst1⟩ | ⟨hst1, _⟩
  · rcases hbr with ⟨hf, hst1⟩ | ⟨hf, hst1⟩
    · subst hst1
      refine ⟨hnd, hpath, ?_⟩
      intro k2 hk2
      injection hk2 with he
      exact he ▸ hf
    · subst hst1
      have hnot : (mkHeaderMapping h).Path ∉ st.agg.map Prod.fst :=
        (findRec_eq_none_iff st.agg ((mkHeaderMapping h).Path)).1 hf
      refine ⟨?_, ?_, ?_⟩
      · rw [List.map_append, List.nodup_append]
        exact ⟨hnd, by simp, by simpa using hnot⟩
      · intro km hkm
        rcases List.mem_append.1 hkm with h1 | h2
        · exact hpath km h1
        · simp only [List.mem_singleton] at h2
          subst h2
          rfl
      · intro k2 hk2
        injection hk2 with he
        subst he
        rw [findRec_append, hf]
        simp [findRec_singleton]
  · subst hst1
    refine ⟨by rw [keys_updateRec]; exact hnd, ?_, ?_⟩
    · intro km hkm
      obtain ⟨km0, hkm0, h1, h2⟩ := mem_updateRec st.agg ckey _ km hkm
      rcases h2 with h2 | h2
      · rw [h1, h2]
        exact hpath km0 hkm0
      · rw [h1, h2, (addToField_meta km0.2 f (wrap64 (parseInt64 v * 1024))).2.2.2.2.2]
        exact hpath km0 hkm0
    · intro k2 hk2
      rw [findRec_updateRec_isSome]
      exact hcur k2 hk2
  · subst hst1
    exact ⟨hnd, hpath, hcur⟩

/-! ## Characterization of a successful run of the scanning loop -/

theorem runLines_current (ls : List String) : ∀ (st stf : ParseState),
    runLines st ls = .ok stf → stf.current = curAfter st.current ls := by
  induction ls with
  | nil =>
    intro st stf hrun
    simp only [runLines, Except.ok.injEq] at hrun
    rw [← hrun]
    rfl
  | cons l ls ih =>
    intro st stf hrun
    rcases hstep : stepLine st l with e | st1
    · simp only [runLines, hstep] at hrun
      exact Except.noConfusion hrun
    simp only [runLines, hstep] at hrun
    rcases stepLine_elim st st1 l hstep with
      ⟨h, hh, hbr⟩ | ⟨hh, k, v, f, ckey, hkv, hfk, hc, hst1⟩ | ⟨hst1, hh, _⟩
    · rw [curAfter_cons_header st.current l ls h hh]
      have hcur1 : st1.current = some ((mkHeaderMapping h).Path) := by
        rcases hbr with ⟨_, hst1⟩ | ⟨_, hst1⟩ <;> rw [hst1]
      rw [ih st1 stf hrun, hcur1]
    · rw [curAfter_cons_skip st.current l ls hh]
      have hcur1 : st1.current = st.current := by rw [hst1]
      rw [ih st1 stf hrun, hcur1]
    · rw [curAfter_cons_skip st.current l ls hh, ← hst1]
      exact ih st1 stf hrun

theorem runLines_keys (ls : List String) : ∀ (st stf : ParseState),
    runLines st ls = .ok stf → StInv st →
    ∀ k, (findRec stf.agg k).isSome ↔
      ((findRec st.agg k).isSome ∨ k ∈ headerPathsOf ls) := by
  induction ls with
  | nil =>
    intro st stf hrun _ k
    simp only [runLines, Except.ok.injEq] at hrun
    rw [← hrun]
    simp [headerPathsOf]
  | cons l ls ih =>
    intro st stf hrun hinv k
    rcases hstep : stepLine st l with e | st1
    · simp only [runLines, hstep] at hrun
      exact Except.noConfusion hrun
    simp only [runLines, hstep] at hrun
    have hinv1 := stepLine_inv st st1 l hstep hinv
    rcases stepLine_elim st st1 l hstep with
      ⟨h, hh, hbr⟩ | ⟨hh, k0, v, f, ckey, hkv, hfk, hc, hst1⟩ | ⟨hst1, hh, _⟩
    · rw [headerPathsOf_cons_header l ls h hh, ih st1 stf hrun hinv1 k]
      rcases hbr with ⟨hf, hst1⟩ | ⟨hf, hst1⟩
      · have hA : findRec st1.agg k = findRec st.agg k := by rw [hst1]
        rw [hA]
        simp only [List.mem_cons]
        constructor
        · rintro (hs | hm)
          · exact Or.inl hs
          · exact Or.inr (Or.inr hm)
        · rintro (hs | he | hm)
          · exact Or.inl hs
          · subst he
            exact Or.inl hf
          · exact Or.inr hm
      · have hA : (findRec st1.agg k).isSome ↔
            ((findRec st.agg k).isSome ∨ k = (mkHeaderMapping h).Path) := by
          rw [hst1]
          show (findRec (st.agg ++ [((mkHeaderMapping h).Path, mkHeaderMapping h)]) k).isSome
            ↔ _
          rw [findRec_append]
          rcases hf2 : findRec st.agg k with _ | m
          · by_cases he : (mkHeaderMapping h).Path = k
            · subst he
              simp [findRec_singleton]
            · simp [findRec, he, Ne.symm he]
          · simp
        rw [hA]
        simp only [List.mem_cons]
        tauto
    · rw [headerPathsOf_cons_skip l ls hh, ih st1 stf hrun hinv1 k]
      have hA : (findRec st1.agg k).isSome = (findRec st.agg k).isSome := by
        rw [hst1]
        exact findRec_updateRec_isSome st.agg ckey k _
      rw [hA]
    · rw [headerPathsOf_cons_skip l ls hh, ih st1 stf hrun hinv1 k, hst1]

theorem runLines_existing (ls : List String) : ∀ (st stf : ParseState),
    runLines st ls = .ok stf → StInv st →
    ∀ k m, findRec st.agg k = some m →
    ∃ m2, findRec stf.agg k = some m2 ∧
      m2.AddrRange = m.AddrRange ∧ m2.Perms = m.Perms ∧ m2.Offset = m.Offset ∧
      m2.Dev = m.Dev ∧ m2.Inode = m.Inode ∧ m2.Path = m.Path ∧
      ∀ f, getField m2 f = wFold (getField m f) (attrVals k f st.current ls) := by
  induction ls with
  | nil =>
    intro st stf hrun _ k m hf
    simp only [runLines, Except.ok.injEq] at hrun
    rw [← hrun]
    exact ⟨m, hf, rfl, rfl, rfl, rfl, rfl, rfl, fun f => rfl⟩
  | cons l ls ih =>
    intro st stf hrun hinv k m hf
    rcases hstep : stepLine st l with e | st1
    · simp only [runLines, hstep] at hrun
      exact Except.noConfusion hrun
    simp only [runLines, hstep] at hrun
    have hinv1 := stepLine_inv st st1 l hstep hinv
    rcases stepLine_elim st st1 l hstep with
      ⟨h, hh, hbr⟩ | ⟨hh, k0, v, f0, ckey, hkv, hfk, hc, hst1⟩ | ⟨hst1, hh, hskip⟩
    · have hf1 : findRec st1.agg k = some m := by
        rcases hbr with ⟨_, hst1⟩ | ⟨hfn, hst1⟩
        · rw [hst1]
          exact hf
        · rw [hst1]
          show findRec (st.agg ++ [((mkHeaderMapping h).Path, mkHeaderMapping h)]) k = some m
          rw [findRec_append, hf]
      have hcur1 : st1.current = some ((mkHeaderMapping h).Path) := by
        rcases hbr with ⟨_, hst1⟩ | ⟨_, hst1⟩ <;> rw [hst1]
      obtain ⟨m2, hm2, h1, h2, h3, h4, h5, h6, hfld⟩ := ih st1 stf hrun hinv1 k m hf1
      refine ⟨m2, hm2, h1, h2, h3, h4, h5, h6, fun f => ?_⟩
      rw [hfld f, attrVals_cons_header k f st.current l ls h hh, hcur1]
    · by_cases hkc : k = ckey
      · subst hkc
        have hg : findRec st1.agg k =
            some (addToField m f0 (wrap64 (parseInt64 v * 1024))) := by
          rw [hst1]
          show findRec (updateRec st.agg k _) k = some _
          rw [findRec_updateRec_self, hf]
          rfl
        have hcur1 : st1.current = st.current := by rw [hst1]
        obtain ⟨m2, hm2, h1, h2, h3, h4, h5, h6, hfld⟩ := ih st1 stf hrun hinv1 k _ hg
        have hmeta := addToField_meta m f0 (wrap64 (parseInt64 v * 1024))
        refine ⟨m2, hm2, h1.trans hmeta.1, h2.trans hmeta.2.1, h3.trans hmeta.2.2.1,
          h4.trans hmeta.2.2.2.1, h5.trans hmeta.2.2.2.2.1, h6.trans hmeta.2.2.2.2.2,
          fun f => ?_⟩
        rw [hfld f, hcur1, attrVals_cons_kv k f st.current l ls k0 v f0 hh hkv hfk, hc]
        by_cases hff : f0 = f
        · subst hff
          rw [if_pos ⟨rfl, rfl⟩, getField_addToField_self]
          rfl
        · rw [if_neg (fun hand => hff hand.2),
            getField_addToField_other m f0 f _ (fun he => hff he.symm)]
      · have hf1 : findRec st1.agg k = some m := by
          rw [hst1]
          show findRec (updateRec st.agg ckey _) k = some m
          rw [findRec_updateRec_other st.agg ckey k _ hkc, hf]
        have hcur1 : st1.current = st.current := by rw [hst1]
        obtain ⟨m2, hm2, h1, h2, h3, h4, h5, h6, hfld⟩ := ih st1 stf hrun hinv1 k m hf1
        refine ⟨m2, hm2, h1, h2, h3, h4, h5, h6, fun f => ?_⟩
        rw [hfld f, hcur1, attrVals_cons_kv k f st.current l ls k0 v f0 hh hkv hfk, hc]
        rw [if_neg (fun hand => hkc (Option.some.inj hand.1).symm)]
    · obtain ⟨m2, hm2, h1, h2, h3, h4, h5, h6, hfld⟩ :=
        ih st1 stf hrun hinv1 k m (hst1.symm ▸ hf)
      refine ⟨m2, hm2, h1, h2, h3, h4, h5, h6, fun f => ?_⟩
      rw [hfld f, hst1]
      rcases hskip with hkv | ⟨k0, v0, hkv, hfk⟩
      · rw [attrVals_cons_skip k f st.current l ls hh hkv]
      · rw [attrVals_cons_kvunknown k f st.current l ls k0 v0 hh hkv hfk]

theorem runLines_new (ls : List String) : ∀ (st stf : ParseState),
    runLines st ls = .ok stf → StInv st →
    ∀ k, findRec st.agg k = none → ∀ m2, findRec stf.agg k = some m2 →
    ∃ h, firstHeaderFor k ls = some h ∧
      m2.AddrRange = (mkHeaderMapping h).AddrRange ∧
      m2.Perms = (mkHeaderMapping h).Perms ∧
      m2.Offset = (mkHeaderMapping h).Offset ∧
      m2.Dev = (mkHeaderMapping h).Dev ∧
      m2.Inode = (mkHeaderMapping h).Inode ∧
      m2.Path = k ∧
      ∀ f, getField m2 f = wFold 0 (attrVals k f st.current ls) := by
  induction ls with
  | nil =>
    intro st stf hrun _ k hkn m2 hm2
    simp only [runLines, Except.ok.injEq] at hrun
    rw [← hrun] at hm2
    rw [hkn] at hm2
    exact Option.noConfusion hm2
  | cons l ls ih =>
    intro st stf hrun hinv k hkn m2 hm2
    rcases hstep : stepLine st l with e | st1
    · simp only [runLines, hstep] at hrun
      exact Except.noConfusion hrun
    simp only [runLines, hstep] at hrun
    have hinv1 := stepLine_inv st st1 l hstep hinv
    rcases stepLine_elim st st1 l hstep with
      ⟨h, hh, hbr⟩ | ⟨hh, k0, v, f0, ckey, hkv, hfk, hc, hst1⟩ | ⟨hst1, hh, hskip⟩
    · by_cases hkey : (mkHeaderMapping h).Path = k
      · -- the line is the first header for k: the record is created here
        rcases hbr with ⟨hfs, _⟩ | ⟨hfn, hst1⟩
        · rw [hkey] at hfs
          rw [hkn] at hfs
          exact Bool.noConfusion hfs
        · have hf1 : findRec st1.agg k = some (mkHeaderMapping h) := by
            rw [hst1]
            show findRec (st.agg ++ [((mkHeaderMapping h).Path, mkHeaderMapping h)]) k
              = some (mkHeaderMapping h)
            rw [findRec_append, hkn, hkey, findRec_singleton]
          have hcur1 : st1.current = some ((mkHeaderMapping h).Path) := by rw [hst1]
          obtain ⟨m3, hm3, h1, h2, h3, h4, h5, h6, hfld⟩ :=
            runLines_existing ls st1 stf hrun hinv1 k (mkHeaderMapping h) hf1
          have hm23 : m2 = m3 := Option.some.inj (hm2.symm.trans hm3)
          subst hm23
          refine ⟨h, ?_, h1, h2, h3, h4, h5, h6.trans (by rw [hkey]), fun f => ?_⟩
          · rw [firstHeaderFor_cons_header k l ls h hh, if_pos hkey]
          · rw [hfld f, attrVals_cons_header k f st.current l ls h hh, hcur1, hkey,
              getField_mkHeaderMapping]
      · -- a header for a different path: the record for k is still absent
        have hf1 : findRec st1.agg k = none := by
          rcases hbr with ⟨_, hst1⟩ | ⟨_, hst1⟩
          · rw [hst1]
            exact hkn
          · rw [hst1]
            show findRec (st.agg ++ [((mkHeaderMapping h).Path, mkHeaderMapping h)]) k = none
            rw [findRec_append, hkn]
            simp [findRec, hkey]
        have hcur1 : st1.current = some ((mkHeaderMapping h).Path) := by
          rcases hbr with ⟨_, hst1⟩ | ⟨_, hst1⟩ <;> rw [hst1]
        obtain ⟨h2, hfh, m1, m2e, m3e, m4e, m5e, m6e, hfld⟩ :=
          ih st1 stf hrun hinv1 k hf1 m2 hm2
        refine ⟨h2, ?_, m1, m2e, m3e, m4e, m5e, m6e, fun f => ?_⟩
        · rw [firstHeaderFor_cons_header k l ls h hh, if_neg hkey, hfh]
        · rw [hfld f, attrVals_cons_header k f st.current l ls h hh, hcur1]
    · -- key-value line: k is not the current key, nothing changes for k
      have hkc : k ≠ ckey := by
        intro he
        subst he
        have := hinv.2.2 k hc
        rw [hkn] at this
        exact Bool.noConfusion this
      have hf1 : findRec st1.agg k = none := by
        rw [hst1]
        show findRec (updateRec st.agg ckey _) k = none
        rw [findRec_updateRec_other st.agg ckey k _ hkc, hkn]
      have hcur1 : st1.current = st.current := by rw [hst1]
      obtain ⟨h2, hfh, m1, m2e, m3e, m4e, m5e, m6e, hfld⟩ :=
        ih st1 stf hrun hinv1 k hf1 m2 hm2
      refine ⟨h2, ?_, m1, m2e, m3e, m4e, m5e, m6e, fun f => ?_⟩
      · rw [firstHeaderFor_cons_skip k l ls hh, hfh]
      · rw [hfld f, hcur1, attrVals_cons_kv k f st.current l ls k0 v f0 hh hkv hfk, hc,
          if_neg (fun hand => hkc (Option.some.inj hand.1).symm)]
    · obtain ⟨h2, hfh, m1, m2e, m3e, m4e, m5e, m6e, hfld⟩ :=
        ih st1 stf hrun hinv1 k (hst1.symm ▸ hkn) m2 hm2
      refine ⟨h2, ?_, m1, m2e, m3e, m4e, m5e, m6e, fun f => ?_⟩
      · rw [firstHeaderFor_cons_skip k l ls hh, hfh]
      · rw [hfld f, hst1]
        rcases hskip with hkv | ⟨k0, v0, hkv, hfk⟩
        · rw [attrVals_cons_skip k f st.current l ls hh hkv]
        · rw [attrVals_cons_kvunknown k f st.current l ls k0 v0 hh hkv hfk]

theorem runLines_inv (ls : List String) : ∀ (st stf : ParseState),
    runLines st ls = .ok stf → StInv st → StInv stf := by
  induction ls with
  | nil =>
    intro st stf hrun hinv
    simp only [runLines, Except.ok.injEq] at hrun
    rw [← hrun]
    exact hinv
  | cons l ls ih =>
    intro st stf hrun hinv
    rcases hstep : stepLine st l with e | st1
    · simp only [runLines, hstep] at hrun
      exact Except.noConfusion hrun
    simp only [runLines, hstep] at hrun
    exact ih st1 stf hrun (stepLine_inv st st1 l hstep hinv)

theorem map_path_eq_keys (agg : List (String × SmapsMapping))
    (hpath : ∀ km ∈ agg, (Prod.snd km).Path = Prod.fst km) :
    agg.map (fun km => (Prod.snd km).Path) = agg.map Prod.fst := by
  induction agg with
  | nil => rfl
  | cons km t ih =>
    simp only [List.map_cons]
    rw [hpath km (List.mem_cons_self ..),
      ih (fun km2 h2 => hpath km2 (List.mem_cons_of_mem _ h2))]

theorem kvTotal_cons_header (l : String) (ls : List String) (h : HeaderGroups)
    (hh : headerMatch l = some h) : kvTotal (l :: ls) = kvTotal ls := by
  simp [kvTotal, hh]

theorem kvTotal_cons_kv (l : String) (ls : List String) (k : String) (v : Nat)
    (hh : headerMatch l = none) (hkv : kvMatch l = some (k, v)) :
    kvTotal (l :: ls) = 1024 * v + kvTotal ls := by
  simp [kvTotal, hh, hkv]

theorem kvTotal_cons_skip (l : String) (ls : List String)
    (hh : headerMatch l = none) (hkv : kvMatch l = none) :
    kvTotal (l :: ls) = kvTotal ls := by
  simp [kvTotal, hh, hkv]

theorem sumBytes_cons (v : Nat) (vs : List Nat) :
    sumBytes (v :: vs) = 1024 * v + sumBytes vs := by
  simp [sumBytes]

theorem sumBytes_attrVals_le_kvTotal (ls : List String) :
    ∀ (p : String) (f : SmapsField) (cur : Option String),
    sumBytes (attrVals p f cur ls) ≤ kvTotal ls := by
  induction ls with
  | nil =>
    intro p f cur
    simp [attrVals, sumBytes, kvTotal]
  | cons l ls ih =>
    intro p f cur
    rcases hh : headerMatch l with _ | h
    · rcases hkv : kvMatch l with _ | kv
      · rw [attrVals_cons_skip p f cur l ls hh hkv, kvTotal_cons_skip l ls hh hkv]
        exact ih p f cur
      · obtain ⟨k, v⟩ := kv
        rw [kvTotal_cons_kv l ls k v hh hkv]
        rcases hfk : fieldOfKey k with _ | f1
        · rw [attrVals_cons_kvunknown p f cur l ls k v hh hkv hfk]
          exact le_add_self.trans (Nat.add_le_add_left (ih p f cur) _)
        · rw [attrVals_cons_kv p f cur l ls k v f1 hh hkv hfk]
          by_cases hcond : cur = some p ∧ f1 = f
          · rw [if_pos hcond, sumBytes_cons]
            exact Nat.add_le_add_left (ih p f cur) _
          · rw [if_neg hcond]
            exact le_add_self.trans (Nat.add_le_add_left (ih p f cur) _)
    · rw [attrVals_cons_header p f cur l ls h hh, kvTotal_cons_header l ls h hh]
      exact ih p f _

/-- Characterization of a successful ParseSmaps call: the resulting record
paths are exactly the header paths of the input without duplicates, and each
record carries the metadata of the first header line for its path together
with the int64 accumulation of all attributed key-value lines. -/
theorem ParseSmaps_ok_spec (lines : List String) (r : List SmapsMapping)
    (hok : ParseSmaps lines = .ok r) :
    (r.map SmapsMapping.Path).Nodup ∧
    (∀ p, p ∈ r.map SmapsMapping.Path ↔ p ∈ headerPathsOf lines) ∧
    (∀ rec ∈ r, ∃ h, firstHeaderFor rec.Path lines = some h ∧
      rec.AddrRange = (mkHeaderMapping h).AddrRange ∧
      rec.Perms = (mkHeaderMapping h).Perms ∧
      rec.Offset = (mkHeaderMapping h).Offset ∧
      rec.Dev = (mkHeaderMapping h).Dev ∧
      rec.Inode = (mkHeaderMapping h).Inode ∧
      ∀ f, getField rec f = wFold 0 (attrVals rec.Path f none lines)) := by
  unfold ParseSmaps at hok
  rcases hrun : runLines initialState lines with e | stf
  · rw [hrun] at hok
    exact Except.noConfusion hok
  rw [hrun] at hok
  have hr : r = stf.agg.map Prod.snd := (Except.ok.inj hok).symm
  have hinvf : StInv stf := runLines_inv lines initialState stf hrun stInv_initial
  have hmapeq : r.map SmapsMapping.Path = stf.agg.map Prod.fst := by
    rw [hr, List.map_map]
    exact map_path_eq_keys stf.agg hinvf.2.1
  refine ⟨?_, ?_, ?_⟩
  · rw [hmapeq]
    exact hinvf.1
  · intro p
    rw [hmapeq, ← findRec_isSome_iff,
      runLines_keys lines initialState stf hrun stInv_initial p]
    simp [initialState, findRec]
  · intro rec hrec
    rw [hr] at hrec
    obtain ⟨km, hkm, hsnd⟩ := List.mem_map.1 hrec
    have hpathk : rec.Path = km.1 := by
      rw [← hsnd]
      exact hinvf.2.1 km hkm
    have hfind : findRec stf.agg rec.Path = some rec := by
      rw [hpathk]
      exact findRec_of_mem_nodup stf.agg km.1 rec hinvf.1
        (by rw [← hsnd]; exact hkm)
    obtain ⟨h, hfh, h1, h2, h3, h4, h5, _, hfld⟩ :=
      runLines_new lines initialState stf hrun stInv_initial rec.Path rfl rec hfind
    exact ⟨h, hfh, h1, h2, h3, h4, h5, hfld⟩

/-- Under the no-overflow bound every field of every record of a successful
parse is exactly the attributed byte total of the specification. -/
theorem ParseSmaps_ok_fields_exact (lines : List String) (r : List SmapsMapping)
    (hok : ParseSmaps lines = .ok r) (hbound : kvTotal lines < 2 ^ 63) :
    ∀ rec ∈ r, ∀ f, getField rec f = (attrTotal lines rec.Path f : Int) := by
  intro rec hrec f
  obtain ⟨_, _, hmem⟩ := ParseSmaps_ok_spec lines r hok
  obtain ⟨h, _, _, _, _, _, _, hfld⟩ := hmem rec hrec
  rw [hfld f]
  have hle : sumBytes (attrVals rec.Path f none lines) ≤ kvTotal lines :=
    sumBytes_attrVals_le_kvTotal lines rec.Path f none
  have hlt : (0 : Int) + (sumBytes (attrVals rec.Path f none lines) : Int) < 2 ^ 63 := by
    have : (sumBytes (attrVals rec.Path f none lines) : Int) < ((2 ^ 63 : Nat) : Int) := by
      exact_mod_cast Nat.lt_of_le_of_lt hle hbound
    omega
  rw [wFold_eq_sumBytes _ 0 le_rfl hlt, attrTotal]
  omega

/-! ## Concrete inputs for the report parser claims -/

/-- End-to-end scenario 1 of the specification: two header lines with path
/lib/libc.so, each followed by a line naming 100 kB of Rss. -/
def scenario1Lines : List String :=
  ["00-01 r-xp 00 00:00 0    /lib/libc.so", "Rss: 100 kB",
   "10-11 r-xp 00 00:00 0    /lib/libc.so", "Rss: 100 kB"]

/-- The capture groups of the first header line of scenario 1. -/
def libcHeader : HeaderGroups :=
  ⟨"00-01", "r-xp", "00", "00:00", "0", "/lib/libc.so"⟩

/-- The single aggregated record scenario 1 produces. -/
def scenario1Result : List SmapsMapping :=
  [addToField (addToField (mkHeaderMapping libcHeader) .rss 102400) .rss 102400]

/-- Input whose single recognized value is two to the fifty-third power of
kilobytes: the byte conversion overflows int64 and wraps negative. -/
def overflowWrapLines : List String :=
  ["00-01 rw-p 00 00:00 0 /x", "Rss: 9007199254740992 kB"]

/-- Input whose literal exceeds int64, so ParseInt clamps it to the largest
int64 value before the byte conversion wraps. -/
def overflowClampLines : List String :=
  ["00-01 rw-p 00 00:00 0 /x", "Rss: 9223372036854775808 kB"]

/-- Input with a key-value line whose unit is written kBytes. -/
def kBytesLines : List String :=
  ["00-01 rw-p 00 00:00 0 /x", "Rss: 100 kBytes"]

/-- End-to-end scenario 2 of the specification: a header line without a
trailing path. -/
def scenario2Line : String := "7f0000-7f1000 rw-p 00000000 00:00 0"

/-- The capture groups of the scenario 2 header line. -/
def scenario2Header : HeaderGroups :=
  ⟨"7f0000-7f1000", "rw-p", "00000000", "00:00", "0", ""⟩

/-- Input with two headers sharing one path but carrying different
permissions and addresses. -/
def mergedPermsLines : List String :=
  ["00-01 r--p 00 00:00 0 /w", "Size: 1 kB",
   "02-03 rw-p 00 00:00 0 /w", "Size: 2 kB"]

/-- The capture groups of the first header line of mergedPermsLines. -/
def mergedPermsHeader : HeaderGroups := ⟨"00-01", "r--p", "00", "00:00", "0", "/w"⟩

/-- The single record mergedPermsLines produces. -/
def mergedPermsRecord : SmapsMapping :=
  addToField (addToField (mkHeaderMapping mergedPermsHeader) .size 1024) .size 2048

/-! ## Claims about the report parser -/

/-- C1 counterexample: on a report whose single recognized key-value line
names two to the fifty-third power of kilobytes, the attributed byte sum is
two to the sixty-third power, but the record field holds the int64-wrapped
negative value, so the field does not equal the sum demanded by the claim. -/
theorem claim1_counterexample :
    (ParseSmaps overflowWrapLines).map (List.map SmapsMapping.RssBytes) =
      .ok [-(2 ^ 63)] ∧
    (attrTotal overflowWrapLines "/x" SmapsField.rss : Int) = 2 ^ 63 ∧
    (-(2 ^ 63) : Int) ≠ (attrTotal overflowWrapLines "/x" SmapsField.rss : Int) := by
  refine ⟨rfl, ?_, ?_⟩ <;> decide

/-- C1 (amended with the int64 bound the counterexample forces): whenever
ParseSmaps returns and the total named bytes stay below two to the
sixty-third power, the result has exactly one record per distinct header
path, and every field of every record equals the sum of 1024 times the
decimal values of the recognized key-value lines attributed to the header
lines sharing that record path. -/
theorem claim1_aggregation (lines : List String) (r : List SmapsMapping)
    (hok : ParseSmaps lines = .ok r) (hbound : kvTotal lines < 2 ^ 63) :
    (r.map SmapsMapping.Path).Nodup ∧
    (∀ p, p ∈ r.map SmapsMapping.Path ↔ p ∈ headerPathsOf lines) ∧
    (∀ rec ∈ r, ∀ f, getField rec f = (attrTotal lines rec.Path f : Int)) := by
  obtain ⟨hnd, hiff, _⟩ := ParseSmaps_ok_spec lines r hok
  exact ⟨hnd, hiff, ParseSmaps_ok_fields_exact lines r hok hbound⟩

/-- C1 witness: scenario 1 parses to one /lib/libc.so record whose Rss field
is 204800 bytes. -/
theorem claim1_witness :
    kvTotal scenario1Lines < 2 ^ 63 ∧
    attrTotal scenario1Lines "/lib/libc.so" SmapsField.rss = 204800 ∧
    (∀ rec ∈ scenario1Result, getField rec SmapsField.rss = 204800) ∧
    ((scenario1Result.map SmapsMapping.Path).Nodup ∧
     (∀ p, p ∈ scenario1Result.map SmapsMapping.Path ↔
        p ∈ headerPathsOf scenario1Lines) ∧
     (∀ rec ∈ scenario1Result, ∀ f,
        getField rec f = (attrTotal scenario1Lines rec.Path f : Int))) :=
  ⟨by decide, by decide, by decide,
   claim1_aggregation scenario1Lines scenario1Result rfl (by decide)⟩

/-- C2: the specification says a parse fails only when the input cannot be
read, with malformed or out-of-place lines skipped; but a recognized
key-value line arriving before any header line dereferences the nil
`mapping` pointer in the Go code, a runtime panic, modelled here as the
nilDeref error. -/
theorem claim2_panic : ParseSmaps ["Rss: 4 kB"] = .error .nilDeref := rfl

/-- C6 counterexample: kvRe has no end anchor, so the line `Rss: 100 kBytes`
matches the ` kB` prefix of its unit and 102400 bytes are accumulated, where
the claim demands the field stay 0. -/
theorem claim6_counterexample :
    (ParseSmaps kBytesLines).map (List.map SmapsMapping.RssBytes) = .ok [102400] ∧
    (102400 : Int) ≠ 0 := by
  exact ⟨rfl, by decide⟩

/-- C6 (amended): a line is ignored by the parser, leaving the whole state
unchanged, exactly when it matches neither the header pattern nor the
unanchored key-value prefix pattern; in particular lines with a non-numeric
value are ignored, but a unit merely beginning with kB (such as kBytes) is
accepted and summed. -/
theorem claim6_skip (st : ParseState) (l : String)
    (hh : headerMatch l = none) (hkv : kvMatch l = none) :
    stepLine st l = .ok st := by
  by_cases hl : l = ""
  · rw [hl]
    rfl
  · simp only [stepLine, if_neg hl, hh, hkv]

/-- C6 witness: a key-value line with a non-numeric value is ignored. -/
theorem claim6_witness :
    headerMatch "Rss: abc kB" = none ∧ kvMatch "Rss: abc kB" = none ∧
    stepLine initialState "Rss: abc kB" = .ok initialState :=
  ⟨rfl, rfl, claim6_skip initialState "Rss: abc kB" rfl rfl⟩

/-- C7 counterexample: a literal just above the int64 maximum is clamped by
ParseInt to the maximum and the multiplication by 1024 wraps, leaving a
negative Rss field of -1024 bytes. -/
theorem claim7_counterexample :
    (ParseSmaps overflowClampLines).map (List.map SmapsMapping.RssBytes) =
      .ok [-1024] ∧
    ¬(0 ≤ (-1024 : Int)) := by
  exact ⟨rfl, by decide⟩

/-- C7 (amended with the int64 bound the counterexample forces): when the
total named bytes stay below two to the sixty-third power, every field of
every record of a successful parse is non-negative. -/
theorem claim7_nonneg (lines : List String) (r : List SmapsMapping)
    (hok : ParseSmaps lines = .ok r) (hbound : kvTotal lines < 2 ^ 63) :
    ∀ rec ∈ r, ∀ f, 0 ≤ getField rec f := by
  intro rec hrec f
  rw [ParseSmaps_ok_fields_exact lines r hok hbound rec hrec f]
  exact Int.ofNat_nonneg _

/-- C7 witness: a small report with non-negative fields. -/
theorem claim7_witness :
    kvTotal ["10-11 rw-p 00 00:00 0 /y", "Swap: 5 kB"] < 2 ^ 63 ∧
    (∀ rec ∈ [addToField (mkHeaderMapping ⟨"10-11", "rw-p", "00", "00:00", "0", "/y"⟩)
        .swap 5120], ∀ f, 0 ≤ getField rec f) :=
  ⟨by decide,
   claim7_nonneg ["10-11 rw-p 00 00:00 0 /y", "Swap: 5 kB"]
     [addToField (mkHeaderMapping ⟨"10-11", "rw-p", "00", "00:00", "0", "/y"⟩) .swap 5120]
     rfl (by decide)⟩

/-- C8: a header line whose captured trailing path is absent or blank (the
capture is the empty string in both cases) produces the record for the
literal anonymous marker: the record created from the header has path
`[anon]`, and scanning such a line always leaves the parser on the `[anon]`
record, creating it from this header when it did not exist yet. -/
theorem claim8_anon (st : ParseState) (l : String) (h : HeaderGroups)
    (hm : headerMatch l = some h) (hp : h.path = "") :
    (mkHeaderMapping h).Path = "[anon]" ∧
    ∃ st1, stepLine st l = .ok st1 ∧ st1.current = some "[anon]" ∧
      (findRec st1.agg "[anon]").isSome ∧
      (findRec st.agg "[anon]" = none →
        st1.agg = st.agg ++ [("[anon]", mkHeaderMapping h)]) := by
  have hpa : (mkHeaderMapping h).Path = "[anon]" := by
    simp only [mkHeaderMapping, hp]
    rfl
  have hl : l ≠ "" := by
    intro he
    rw [he, headerMatch_empty] at hm
    exact Option.noConfusion hm
  refine ⟨hpa, ?_⟩
  rcases hf : findRec st.agg "[anon]" with _ | m0
  · refine ⟨⟨st.agg ++ [("[anon]", mkHeaderMapping h)], some "[anon]"⟩, ?_, rfl, ?_,
      fun _ => rfl⟩
    · simp only [stepLine, if_neg hl, hm, hpa, hf]
    · rw [findRec_append, hf, findRec_singleton]
      rfl
  · refine ⟨⟨st.agg, some "[anon]"⟩, ?_, rfl, by simp [hf], ?_⟩
    · simp only [stepLine, if_neg hl, hm, hpa, hf]
    · intro hnone
      exact Option.noConfusion hnone

/-- C8 witness: end-to-end scenario 2, the pathless header line yields one
record whose path is the anonymous marker. -/
theorem claim8_witness :
    headerMatch scenario2Line = some scenario2Header ∧
    ParseSmaps [scenario2Line] = .ok [mkHeaderMapping scenario2Header] ∧
    ((mkHeaderMapping scenario2Header).Path = "[anon]" ∧
     ∃ st1, stepLine initialState scenario2Line = .ok st1 ∧
       st1.current = some "[anon]" ∧ (findRec st1.agg "[anon]").isSome ∧
       (findRec initialState.agg "[anon]" = none →
         st1.agg = initialState.agg ++ [("[anon]", mkHeaderMapping scenario2Header)])) :=
  ⟨rfl, rfl, claim8_anon initialState scenario2Line scenario2Header rfl rfl⟩

/-- C10: every record of a successful parse carries the header metadata
(address range, permissions, offset, device, inode) of the first header line
whose path equals the record path; metadata of later header lines with the
same path, including different permission strings, is discarded. -/
theorem claim10_first_header_metadata (lines : List String) (r : List SmapsMapping)
    (rec : SmapsMapping) (hok : ParseSmaps lines = .ok r) (hrec : rec ∈ r) :
    ∃ h, firstHeaderFor rec.Path lines = some h ∧
      rec.AddrRange = (mkHeaderMapping h).AddrRange ∧
      rec.Perms = (mkHeaderMapping h).Perms ∧
      rec.Offset = (mkHeaderMapping h).Offset ∧
      rec.Dev = (mkHeaderMapping h).Dev ∧
      rec.Inode = (mkHeaderMapping h).Inode := by
  obtain ⟨_, _, hmem⟩ := ParseSmaps_ok_spec lines r hok
  obtain ⟨h, hfh, h1, h2, h3, h4, h5, _⟩ := hmem rec hrec
  exact ⟨h, hfh, h1, h2, h3, h4, h5⟩

/-- C10 witness: two headers with path /w and different permissions merge
into one record carrying the first header permissions r--p. -/
theorem claim10_witness :
    ParseSmaps mergedPermsLines = .ok [mergedPermsRecord] ∧
    mergedPermsRecord.Perms = "r--p" ∧
    mergedPermsRecord.SizeBytes = 3072 ∧
    (∃ h, firstHeaderFor mergedPermsRecord.Path mergedPermsLines = some h ∧
      mergedPermsRecord.AddrRange = (mkHeaderMapping h).AddrRange ∧
      mergedPermsRecord.Perms = (mkHeaderMapping h).Perms ∧
      mergedPermsRecord.Offset = (mkHeaderMapping h).Offset ∧
      mergedPermsRecord.Dev = (mkHeaderMapping h).Dev ∧
      mergedPermsRecord.Inode = (mkHeaderMapping h).Inode) :=
  ⟨rfl, rfl, rfl,
   claim10_first_header_metadata mergedPermsLines [mergedPermsRecord]
     mergedPermsRecord rfl (List.mem_singleton.2 rfl)⟩

/-! ## The Kubernetes process selector (kubernetes.go)

GetHostPIDs resolves a four-field selector (namespace, pod, container,
command) to host process identifiers by querying the CRI API for sandboxes
and containers, containerd for each container init process, and the proc
filesystem for namespace membership.  All of that external state is modelled
by one World value: the CRI sandbox listing (which may fail, as the RPC can),
the container population served by the CRI label-selector query (with a
per-pod injected transport failure), the containerd task lookup, and the
proc filesystem entries with their namespace links and comm files. -/

/-- Lifecycle state of a CRI container; only running containers are kept. -/
inductive ContainerState where
  | created | running | exited | unknown
deriving DecidableEq

/-- A pod sandbox as listed by the CRI API: the label values the code reads.
A label missing from the map reads as the empty string in Go. -/
structure Sandbox where
  labelNamespace : String
  labelPodName : String
  labelPodUID : String
deriving DecidableEq

/-- A container as stored by the CRI runtime, with the labels the query
filters on. -/
structure Container where
  id : String
  labelPodUID : String
  labelName : String
  state : ContainerState
deriving DecidableEq

/-- A directory entry of the proc filesystem root. -/
structure ProcEntry where
  name : String
  isDir : Bool
deriving DecidableEq

/-- The external state one resolution cycle reads. -/
structure World where
  listPodSandbox : Except String (List Sandbox)
  containers : List Container
  listContainersErr : String → Option String
  initPID : String → Except String String
  procEntries : Option (List ProcEntry)
  nsLink : String → Option String
  commFile : String → Option String

/-- The errors GetHostPIDs returns: the propagated sandbox-listing failure
and the three empty-stage conditions. -/
inductive ResolveErr where
  | listSandbox (msg : String)
  | podNotFound
  | noRunningContainers
  | noMatchingProcesses
deriving DecidableEq

/-- Parsing of a namespace link of the form `pid:[<integer>]` as performed by
fmt.Sscanf with that format; input after the closing bracket is ignored. -/
def parseNsLink (link : String) : Option Int :=
  match link.toList with
  | 'p' :: 'i' :: 'd' :: ':' :: '[' :: r =>
    let signDigits : Bool × List Char :=
      match r with
      | '-' :: t => (true, t)
      | '+' :: t => (false, t)
      | t => (false, t)
    match takeWhile1 isDigitChar signDigits.2 with
    | none => none
    | some (ds, r2) =>
      match r2 with
      | ']' :: _ =>
        some (if signDigits.1 then -(natOfDigits ds : Int) else (natOfDigits ds : Int))
      | _ => none
  | _ => none

/-- getPIDNamespace of kubernetes.go: read the ns/pid link of the process and
extract the namespace inode, formatted back to decimal. -/
def getPIDNamespace (w : World) (pid : String) : Except String String :=
  match w.nsLink pid with
  | none => .error "readlink failure"
  | some link =>
    match parseNsLink link with
    | some n => .ok (toString n)
    | none => .error "unexpected ns link format"

/-- pidNamespaceMatches of kubernetes.go: re-read and re-parse the link of
the candidate process and compare the formatted inode strings. -/
def pidNamespaceMatches (w : World) (pid ns : String) : Bool :=
  match w.nsLink pid with
  | none => false
  | some link =>
    match parseNsLink link with
    | some n => toString n == ns
    | none => false

/-- commMatches of kubernetes.go: the trimmed comm file contents must equal
the requested command name exactly. -/
def commMatches (w : World) (pid comm : String) : Bool :=
  match w.commFile pid with
  | none => false
  | some data => trimSpace data == comm

/-- Go strconv.Atoi: optional sign, nonempty digits, nothing else, and the
value must fit a 64-bit signed integer (on range error Atoi reports an error
and the caller skips the entry). -/
def atoi (s : String) : Option Int :=
  let signDigits : Bool × List Char :=
    match s.toList with
    | '-' :: t => (true, t)
    | '+' :: t => (false, t)
    | t => (false, t)
  if signDigits.2.isEmpty || !signDigits.2.all isDigitChar then none
  else
    let v : Int := if signDigits.1 then -(natOfDigits signDigits.2 : Int)
                   else (natOfDigits signDigits.2 : Int)
    if -(2 ^ 63) ≤ v ∧ v ≤ int64Max then some v else none

/-- The filter body of the findPIDsInPIDNamespace loop for one directory
entry: skip non-numeric names, non-directories, namespace mismatches, and
(unless the command field is the wildcard) comm mismatches. -/
def procEntryKeep (w : World) (ns comm : String) (e : ProcEntry) : Option Int :=
  match atoi e.name with
  | none => none
  | some pidInt =>
    if !e.isDir then none
    else if !pidNamespaceMatches w e.name ns then none
    else if comm != "*" && !commMatches w e.name comm then none
    else some pidInt

/-- findPIDsInPIDNamespace of kubernetes.go; a directory read failure yields
the empty list, not an error. -/
def findPIDsInPIDNamespace (w : World) (ns comm : String) : List Int :=
  match w.procEntries with
  | none => []
  | some entries => entries.filterMap (procEntryKeep w ns comm)

/-- getContainersForPod of kubernetes.go: a CRI ListContainers call with a
label selector on the pod uid and, when the container field is not the
wildcard, on the container name; the server returns the containers matching
every selector label.  The injected per-pod error models a failing RPC. -/
def getContainersForPod (w : World) (podUID container : String) :
    Except String (List Container) :=
  match w.listContainersErr podUID with
  | some e => .error e
  | none =>
    .ok (w.containers.filter (fun c =>
      c.labelPodUID == podUID && (container == "*" || c.labelName == container)))

/-- The running containers of a listing, keeping their ids in order. -/
def runningContainerIDs (cs : List Container) : List String :=
  (cs.filter (fun c => c.state == ContainerState.running)).map Container.id

/-- Container ids one pod contributes: none when its listing fails. -/
def podContribution (w : World) (container podUID : String) : List String :=
  match getContainersForPod w podUID container with
  | .error _ => []
  | .ok cs => runningContainerIDs cs

/-- Stage two of GetHostPIDs: collect running container ids over all matching
pods, skipping pods whose listing fails. -/
def collectContainerUIDs (w : World) (container : String)
    (podUIDs : List String) : List String :=
  podUIDs.foldl (fun acc podUID => acc ++ podContribution w container podUID) []

/-- Host process ids one container contributes: its init process is resolved
through containerd, the namespace of that process is read, and the proc root
is scanned; any failure on the way contributes nothing. -/
def pidsForContainer (w : World) (comm containerUID : String) : List Int :=
  match w.initPID containerUID with
  | .error _ => []
  | .ok initPID =>
    match getPIDNamespace w initPID with
    | .error _ => []
    | .ok pidNS => findPIDsInPIDNamespace w pidNS comm

/-- Stages three and four of GetHostPIDs: append the scan results of every
container. -/
def collectPIDs (w : World) (comm : String) (containerUIDs : List String) : List Int :=
  containerUIDs.foldl (fun acc containerUID => acc ++ pidsForContainer w comm containerUID) []

/-- The sandbox filter of GetHostPIDs on the namespace and pod name labels,
with the wildcard passing everything. -/
def sandboxMatches (nsField podField : String) (sb : Sandbox) : Bool :=
  (nsField == "*" || sb.labelNamespace == nsField) &&
  (podField == "*" || sb.labelPodName == podField)

/-- Stage one of GetHostPIDs: pod uids of the sandboxes passing the filter. -/
def filterSandboxes (sbs : List Sandbox) (nsField podField : String) : List String :=
  (sbs.filter (sandboxMatches nsField podField)).map Sandbox.labelPodUID

/-- GetHostPIDs of kubernetes.go. -/
def GetHostPIDs (w : World) (nsField podField containerField commField : String) :
    Except ResolveErr (List Int) :=
  match w.listPodSandbox with
  | .error e => .error (.listSandbox e)
  | .ok sbs =>
    let podUIDs := filterSandboxes sbs nsField podField
    if podUIDs.isEmpty then .error .podNotFound
    else
      let containerUIDs := collectContainerUIDs w containerField podUIDs
      if containerUIDs.isEmpty then .error .noRunningContainers
      else
        let allPIDs := collectPIDs w commField containerUIDs
        if allPIDs.isEmpty then .error .noMatchingProcesses
        else .ok allPIDs

/-! ## Lemmas about GetHostPIDs -/

theorem getHostPIDs_eq (w : World) (sbs : List Sandbox) (n p c m : String)
    (hsb : w.listPodSandbox = .ok sbs) :
    GetHostPIDs w n p c m =
      (if filterSandboxes sbs n p = [] then .error .podNotFound
       else if collectContainerUIDs w c (filterSandboxes sbs n p) = [] then
         .error .noRunningContainers
       else if collectPIDs w m (collectContainerUIDs w c (filterSandboxes sbs n p)) = []
         then .error .noMatchingProcesses
       else .ok (collectPIDs w m (collectContainerUIDs w c (filterSandboxes sbs n p)))) := by
  unfold GetHostPIDs
  rw [hsb]
  simp only [List.isEmpty_iff]

/-- C3: given that the sandbox-listing call itself succeeds, GetHostPIDs
returns an error exactly when one of its three stage results is empty, the
error names the first empty stage, and a successful return carries the
nonempty process list of the final stage. -/
theorem claim3_error_iff (w : World) (sbs : List Sandbox) (n p c m : String)
    (hsb : w.listPodSandbox = .ok sbs) :
    ((∃ e, GetHostPIDs w n p c m = .error e) ↔
       (filterSandboxes sbs n p = [] ∨
        collectContainerUIDs w c (filterSandboxes sbs n p) = [] ∨
        collectPIDs w m (collectContainerUIDs w c (filterSandboxes sbs n p)) = [])) ∧
    (GetHostPIDs w n p c m = .error .podNotFound ↔ filterSandboxes sbs n p = []) ∧
    (GetHostPIDs w n p c m = .error .noRunningContainers ↔
       (filterSandboxes sbs n p ≠ [] ∧
        collectContainerUIDs w c (filterSandboxes sbs n p) = [])) ∧
    (GetHostPIDs w n p c m = .error .noMatchingProcesses ↔
       (filterSandboxes sbs n p ≠ [] ∧
        collectContainerUIDs w c (filterSandboxes sbs n p) ≠ [] ∧
        collectPIDs w m (collectContainerUIDs w c (filterSandboxes sbs n p)) = [])) ∧
    (∀ pids, GetHostPIDs w n p c m = .ok pids →
       pids = collectPIDs w m (collectContainerUIDs w c (filterSandboxes sbs n p)) ∧
       pids ≠ []) := by
  rw [getHostPIDs_eq w sbs n p c m hsb]
  by_cases h1 : filterSandboxes sbs n p = []
  · rw [if_pos h1]
    refine ⟨?_, ?_, ?_, ?_, ?_⟩ <;> simp [h1]
  · rw [if_neg h1]
    by_cases h2 : collectContainerUIDs w c (filterSandboxes sbs n p) = []
    · rw [if_pos h2]
      refine ⟨?_, ?_, ?_, ?_, ?_⟩ <;> simp [h1, h2]
    · rw [if_neg h2]
      by_cases h3 : collectPIDs w m (collectContainerUIDs w c (filterSandboxes sbs n p)) = []
      · rw [if_pos h3]
        refine ⟨?_, ?_, ?_, ?_, ?_⟩ <;> simp [h1, h2, h3]
      · rw [if_neg h3]
        refine ⟨?_, ?_, ?_, ?_, ?_⟩ <;> simp [h1, h2, h3]

/-- External state in which the sandbox-listing RPC itself fails. -/
def sandboxDownWorld : World := {
  listPodSandbox := .error "sandbox RPC failure",
  containers := [],
  listContainersErr := fun _ => none,
  initPID := fun _ => .error "no task",
  procEntries := none,
  nsLink := fun _ => none,
  commFile := fun _ => none }

/-- C3 counterexample: when the ListPodSandbox RPC fails, GetHostPIDs
returns that error even though no stage result is empty (no stage ran), so
the error set is not exhausted by the three empty-stage conditions and the
claimed equivalence fails. -/
theorem claim3_counterexample :
    GetHostPIDs sandboxDownWorld "*" "*" "*" "*" =
      .error (.listSandbox "sandbox RPC failure") ∧
    ResolveErr.listSandbox "sandbox RPC failure" ≠ .podNotFound ∧
    ResolveErr.listSandbox "sandbox RPC failure" ≠ .noRunningContainers ∧
    ResolveErr.listSandbox "sandbox RPC failure" ≠ .noMatchingProcesses :=
  ⟨rfl, by decide, by decide, by decide⟩

/-- Healthy external state: one pod in namespace default with one running
container whose init process 10 lives in namespace inode 5 together with
process 11. -/
def healthyWorld : World := {
  listPodSandbox := .ok [⟨"default", "p1", "u1"⟩],
  containers := [⟨"c1", "u1", "web", .running⟩],
  listContainersErr := fun _ => none,
  initPID := fun _ => .ok "10",
  procEntries := some [⟨"10", true⟩, ⟨"11", true⟩, ⟨"self", false⟩],
  nsLink := fun pid => if pid = "10" || pid = "11" then some "pid:[5]" else none,
  commFile := fun pid => if pid = "10" then some "web\n" else some "helper\n" }

/-- C3 witness: the equivalence instantiated on a healthy world where
resolution succeeds with a nonempty process list. -/
theorem claim3_witness :
    ((∃ e, GetHostPIDs healthyWorld "default" "p1" "web" "*" = .error e) ↔
       (filterSandboxes [⟨"default", "p1", "u1"⟩] "default" "p1" = [] ∨
        collectContainerUIDs healthyWorld "web"
          (filterSandboxes [⟨"default", "p1", "u1"⟩] "default" "p1") = [] ∨
        collectPIDs healthyWorld "*" (collectContainerUIDs healthyWorld "web"
          (filterSandboxes [⟨"default", "p1", "u1"⟩] "default" "p1")) = [])) ∧
    (GetHostPIDs healthyWorld "default" "p1" "web" "*" = .error .podNotFound ↔
       filterSandboxes [⟨"default", "p1", "u1"⟩] "default" "p1" = []) ∧
    (GetHostPIDs healthyWorld "default" "p1" "web" "*" = .error .noRunningContainers ↔
       (filterSandboxes [⟨"default", "p1", "u1"⟩] "default" "p1" ≠ [] ∧
        collectContainerUIDs healthyWorld "web"
          (filterSandboxes [⟨"default", "p1", "u1"⟩] "default" "p1") = [])) ∧
    (GetHostPIDs healthyWorld "default" "p1" "web" "*" = .error .noMatchingProcesses ↔
       (filterSandboxes [⟨"default", "p1", "u1"⟩] "default" "p1" ≠ [] ∧
        collectContainerUIDs healthyWorld "web"
          (filterSandboxes [⟨"default", "p1", "u1"⟩] "default" "p1") ≠ [] ∧
        collectPIDs healthyWorld "*" (collectContainerUIDs healthyWorld "web"
          (filterSandboxes [⟨"default", "p1", "u1"⟩] "default" "p1")) = [])) ∧
    (∀ pids, GetHostPIDs healthyWorld "default" "p1" "web" "*" = .ok pids →
       pids = collectPIDs healthyWorld "*" (collectContainerUIDs healthyWorld "web"
         (filterSandboxes [⟨"default", "p1", "u1"⟩] "default" "p1")) ∧
       pids ≠ []) :=
  claim3_error_iff healthyWorld [⟨"default", "p1", "u1"⟩] "default" "p1" "web" "*" rfl

theorem foldl_append_eq_flatten {α β : Type} (f : α → List β) (l : List α) :
    ∀ acc : List β, l.foldl (fun a x => a ++ f x) acc = acc ++ (l.map f).flatten := by
  induction l with
  | nil =>
    intro acc
    simp
  | cons x t ih =>
    intro acc
    simp [ih, List.append_assoc]

theorem collectContainerUIDs_eq (w : World) (c : String) (podUIDs : List String) :
    collectContainerUIDs w c podUIDs = (podUIDs.map (podContribution w c)).flatten := by
  simpa using foldl_append_eq_flatten (podContribution w c) podUIDs []

theorem collectPIDs_eq (w : World) (m : String) (containerUIDs : List String) :
    collectPIDs w m containerUIDs = (containerUIDs.map (pidsForContainer w m)).flatten := by
  simpa using foldl_append_eq_flatten (pidsForContainer w m) containerUIDs []

theorem mem_collectContainerUIDs (w : World) (c : String) (podUIDs : List String)
    (x : String) :
    x ∈ collectContainerUIDs w c podUIDs ↔
      ∃ u ∈ podUIDs, x ∈ podContribution w c u := by
  rw [collectContainerUIDs_eq]
  simp [List.mem_flatten]

theorem mem_collectPIDs (w : World) (m : String) (containerUIDs : List String)
    (x : Int) :
    x ∈ collectPIDs w m containerUIDs ↔
      ∃ cu ∈ containerUIDs, x ∈ pidsForContainer w m cu := by
  rw [collectPIDs_eq]
  simp [List.mem_flatten]

theorem mem_filterSandboxes (sbs : List Sandbox) (n p : String) (u : String) :
    u ∈ filterSandboxes sbs n p ↔
      ∃ sb ∈ sbs, sandboxMatches n p sb = true ∧ sb.labelPodUID = u := by
  unfold filterSandboxes
  simp [List.mem_filter]
  tauto

/-! ## Wildcard monotonicity of the selector filters -/

theorem sandboxMatches_wild_ns (n p : String) (sb : Sandbox)
    (h : sandboxMatches n p sb = true) : sandboxMatches "*" p sb = true := by
  simp only [sandboxMatches, Bool.and_eq_true, Bool.or_eq_true] at h ⊢
  exact ⟨Or.inl rfl, h.2⟩

theorem sandboxMatches_wild_pod (n p : String) (sb : Sandbox)
    (h : sandboxMatches n p sb = true) : sandboxMatches n "*" sb = true := by
  simp only [sandboxMatches, Bool.and_eq_true, Bool.or_eq_true] at h ⊢
  exact ⟨h.1, Or.inl rfl⟩

theorem podContribution_wild (w : World) (c u : String) (x : String)
    (h : x ∈ podContribution w c u) : x ∈ podContribution w "*" u := by
  unfold podContribution getContainersForPod at h ⊢
  rcases he : w.listContainersErr u with _ | e
  · rw [he] at h
    dsimp only at h ⊢
    simp only [runningContainerIDs, List.mem_map, List.mem_filter] at h ⊢
    obtain ⟨cont, ⟨⟨hmem, hlab⟩, hrun⟩, hid⟩ := h
    refine ⟨cont, ⟨⟨hmem, ?_⟩, hrun⟩, hid⟩
    simp only [Bool.and_eq_true, Bool.or_eq_true] at hlab ⊢
    exact ⟨hlab.1, Or.inl rfl⟩
  · rw [he] at h
    simp at h

theorem procEntryKeep_wild (w : World) (ns m : String) (e : ProcEntry) (v : Int)
    (h : procEntryKeep w ns m e = some v) : procEntryKeep w ns "*" e = some v := by
  unfold procEntryKeep at h ⊢
  rcases ha : atoi e.name with _ | pidInt
  · rw [ha] at h
    simp at h
  · rw [ha] at h
    dsimp only at h ⊢
    by_cases hd : (!e.isDir) = true
    · rw [if_pos hd] at h
      exact Option.noConfusion h
    · rw [if_neg hd] at h
      rw [if_neg hd]
      by_cases hn : (!pidNamespaceMatches w e.name ns) = true
      · rw [if_pos hn] at h
        exact Option.noConfusion h
      · rw [if_neg hn] at h
        rw [if_neg hn]
        rw [show ("*" != "*" && !commMatches w e.name "*") = false from rfl,
          if_neg (fun hcontra => Bool.noConfusion hcontra)]
        by_cases hc : (m != "*" && !commMatches w e.name m) = true
        · rw [if_pos hc] at h
          exact Option.noConfusion h
        · rw [if_neg hc] at h
          exact h

theorem pidsForContainer_wild (w : World) (m cu : String) (x : Int)
    (h : x ∈ pidsForContainer w m cu) : x ∈ pidsForContainer w "*" cu := by
  unfold pidsForContainer at h ⊢
  rcases hi : w.initPID cu with e | ipid
  · rw [hi] at h
    simp at h
  · rw [hi] at h
    dsimp only at h ⊢
    rcases hn : getPIDNamespace w ipid with e | ns
    · rw [hn] at h
      simp at h
    · rw [hn] at h
      dsimp only at h ⊢
      unfold findPIDsInPIDNamespace at h ⊢
      rcases hp : w.procEntries with _ | entries
      · rw [hp] at h
        simp at h
      · rw [hp] at h
        dsimp only at h ⊢
        obtain ⟨en, hen, hkeep⟩ := List.mem_filterMap.1 h
        exact List.mem_filterMap.2 ⟨en, hen, procEntryKeep_wild w ns m en x hkeep⟩

/-- One inclusion step of the whole resolution under pointwise weaker
filters: any process found under the stronger selector is found under the
weaker one, and the run still succeeds. -/
theorem getHostPIDs_mono (w : World) (n p c m n2 p2 c2 m2 : String)
    (hsand : ∀ sb, sandboxMatches n p sb = true → sandboxMatches n2 p2 sb = true)
    (hcont : ∀ u x, x ∈ podContribution w c u → x ∈ podContribution w c2 u)
    (hcomm : ∀ ns e v, procEntryKeep w ns m e = some v → procEntryKeep w ns m2 e = some v)
    (pids : List Int) (x : Int)
    (hok : GetHostPIDs w n p c m = .ok pids) (hx : x ∈ pids) :
    ∃ pids2, GetHostPIDs w n2 p2 c2 m2 = .ok pids2 ∧ x ∈ pids2 := by
  rcases hsb : w.listPodSandbox with e | sbs
  · unfold GetHostPIDs at hok
    rw [hsb] at hok
    exact Except.noConfusion hok
  obtain ⟨_, _, _, _, hokchar⟩ := claim3_error_iff w sbs n p c m hsb
  obtain ⟨hpids, hne⟩ := hokchar pids hok
  -- stage inclusions
  have hs1 : ∀ u, u ∈ filterSandboxes sbs n p → u ∈ filterSandboxes sbs n2 p2 := by
    intro u hu
    obtain ⟨sb, hsbm, hm, he⟩ := (mem_filterSandboxes sbs n p u).1 hu
    exact (mem_filterSandboxes sbs n2 p2 u).2 ⟨sb, hsbm, hsand sb hm, he⟩
  have hs2 : ∀ y, y ∈ collectContainerUIDs w c (filterSandboxes sbs n p) →
      y ∈ collectContainerUIDs w c2 (filterSandboxes sbs n2 p2) := by
    intro y hy
    obtain ⟨u, hu, hyc⟩ := (mem_collectContainerUIDs w c _ y).1 hy
    exact (mem_collectContainerUIDs w c2 _ y).2 ⟨u, hs1 u hu, hcont u y hyc⟩
  have hs3 : ∀ z, z ∈ collectPIDs w m (collectContainerUIDs w c (filterSandboxes sbs n p)) →
      z ∈ collectPIDs w m2 (collectContainerUIDs w c2 (filterSandboxes sbs n2 p2)) := by
    intro z hz
    obtain ⟨cu, hcu, hzc⟩ := (mem_collectPIDs w m _ z).1 hz
    refine (mem_collectPIDs w m2 _ z).2 ⟨cu, hs2 cu hcu, ?_⟩
    -- pidsForContainer monotone in the comm argument
    unfold pidsForContainer at hzc ⊢
    rcases hi : w.initPID cu with e2 | ipid
    · rw [hi] at hzc
      simp at hzc
    · rw [hi] at hzc
      dsimp only at hzc ⊢
      rcases hn : getPIDNamespace w ipid with e2 | ns
      · rw [hn] at hzc
        simp at hzc
      · rw [hn] at hzc
        dsimp only at hzc ⊢
        unfold findPIDsInPIDNamespace at hzc ⊢
        rcases hp : w.procEntries with _ | entries
        · rw [hp] at hzc
          simp at hzc
        · rw [hp] at hzc
          dsimp only at hzc ⊢
          obtain ⟨en, hen, hkeep⟩ := List.mem_filterMap.1 hzc
          exact List.mem_filterMap.2 ⟨en, hen, hcomm ns en z hkeep⟩
  -- the weaker run succeeds, because its stages contain the nonempty strong ones
  have hxin : x ∈ collectPIDs w m2 (collectContainerUIDs w c2 (filterSandboxes sbs n2 p2)) :=
    hs3 x (hpids ▸ hx)
  have h1ne : filterSandboxes sbs n2 p2 ≠ [] := by
    have h1 : filterSandboxes sbs n p ≠ [] := by
      intro hemp
      rw [getHostPIDs_eq w sbs n p c m hsb, if_pos hemp] at hok
      exact Except.noConfusion hok
    obtain ⟨u, hu⟩ := List.exists_mem_of_ne_nil _ h1
    exact List.ne_nil_of_mem (hs1 u hu)
  have h2ne : collectContainerUIDs w c2 (filterSandboxes sbs n2 p2) ≠ [] := by
    have h2 : collectContainerUIDs w c (filterSandboxes sbs n p) ≠ [] := by
      intro hemp
      rw [getHostPIDs_eq w sbs n p c m hsb] at hok
      by_cases hemp1 : filterSandboxes sbs n p = []
      · rw [if_pos hemp1] at hok
        exact Except.noConfusion hok
      · rw [if_neg hemp1, if_pos hemp] at hok
        exact Except.noConfusion hok
    obtain ⟨y, hy⟩ := List.exists_mem_of_ne_nil _ h2
    exact List.ne_nil_of_mem (hs2 y hy)
  have h3ne : collectPIDs w m2 (collectContainerUIDs w c2 (filterSandboxes sbs n2 p2)) ≠ [] :=
    List.ne_nil_of_mem hxin
  refine ⟨_, ?_, hxin⟩
  rw [getHostPIDs_eq w sbs n2 p2 c2 m2 hsb, if_neg h1ne, if_neg h2ne, if_neg h3ne]

/-- C5: wildcard monotonicity of selector resolution, strengthened to any
literal: whenever resolution with some value in a selector field includes a
process in the successful result, resolution with that field replaced by the
wildcard while the other fields stay unchanged also succeeds and still
includes that process. -/
theorem claim5_wildcard_monotone (w : World) (n p c m : String) (pids : List Int)
    (x : Int) (hok : GetHostPIDs w n p c m = .ok pids) (hx : x ∈ pids) :
    (∃ pids1, GetHostPIDs w "*" p c m = .ok pids1 ∧ x ∈ pids1) ∧
    (∃ pids2, GetHostPIDs w n "*" c m = .ok pids2 ∧ x ∈ pids2) ∧
    (∃ pids3, GetHostPIDs w n p "*" m = .ok pids3 ∧ x ∈ pids3) ∧
    (∃ pids4, GetHostPIDs w n p c "*" = .ok pids4 ∧ x ∈ pids4) := by
  refine ⟨?_, ?_, ?_, ?_⟩
  · exact getHostPIDs_mono w n p c m "*" p c m
      (fun sb hm => sandboxMatches_wild_ns n p sb hm)
      (fun u y hy => hy) (fun ns e v hv => hv) pids x hok hx
  · exact getHostPIDs_mono w n p c m n "*" c m
      (fun sb hm => sandboxMatches_wild_pod n p sb hm)
      (fun u y hy => hy) (fun ns e v hv => hv) pids x hok hx
  · exact getHostPIDs_mono w n p c m n p "*" m
      (fun sb hm => hm) (fun u y hy => podContribution_wild w c u y hy)
      (fun ns e v hv => hv) pids x hok hx
  · exact getHostPIDs_mono w n p c m n p c "*"
      (fun sb hm => hm) (fun u y hy => hy)
      (fun ns e v hv => procEntryKeep_wild w ns m e v hv) pids x hok hx

/-- External state with one pod, one running container and one process,
every selector field carrying a literal value. -/
def monoWorld : World := {
  listPodSandbox := .ok [⟨"default", "web-1", "u1"⟩],
  containers := [⟨"c1", "u1", "web", .running⟩],
  listContainersErr := fun _ => none,
  initPID := fun _ => .ok "20",
  procEntries := some [⟨"20", true⟩],
  nsLink := fun pid => if pid = "20" then some "pid:[9]" else none,
  commFile := fun pid => if pid = "20" then some "nginx\n" else none }

/-- C5 witness: process 20 is found under the fully literal selector and
remains in the result when each field in turn is replaced by the wildcard. -/
theorem claim5_witness :
    GetHostPIDs monoWorld "default" "web-1" "web" "nginx" = .ok [20] ∧
    ((∃ pids1, GetHostPIDs monoWorld "*" "web-1" "web" "nginx" = .ok pids1 ∧ 20 ∈ pids1) ∧
     (∃ pids2, GetHostPIDs monoWorld "default" "*" "web" "nginx" = .ok pids2 ∧ 20 ∈ pids2) ∧
     (∃ pids3, GetHostPIDs monoWorld "default" "web-1" "*" "nginx" = .ok pids3 ∧ 20 ∈ pids3) ∧
     (∃ pids4, GetHostPIDs monoWorld "default" "web-1" "web" "*" = .ok pids4 ∧ 20 ∈ pids4)) :=
  ⟨rfl, claim5_wildcard_monotone monoWorld "default" "web-1" "web" "nginx" [20] 20 rfl
     (List.mem_singleton.2 rfl)⟩

/-! ## Duplicate analysis of the process list -/

theorem filterMap_sublist_of_imp {α β : Type} (f g : α → Option β) (l : List α)
    (himp : ∀ e v, g e = some v → f e = some v) :
    (l.filterMap g).Sublist (l.filterMap f) := by
  induction l with
  | nil => simp
  | cons e t ih =>
    rcases hg : g e with _ | v
    · rcases hf : f e with _ | v2
      · rw [List.filterMap_cons, List.filterMap_cons, hg, hf]
        exact ih
      · rw [List.filterMap_cons, List.filterMap_cons, hg, hf]
        exact ih.cons v2
    · have hf : f e = some v := himp e v hg
      rw [List.filterMap_cons, List.filterMap_cons, hg, hf]
      exact ih.cons₂ v

theorem nodup_filterMap_inj {α β : Type} (f : α → Option β) (l : List α)
    (hnd : (l.filterMap f).Nodup) (e1 e2 : α) (a : β)
    (h1 : e1 ∈ l) (h2 : e2 ∈ l) (hne : e1 ≠ e2)
    (hf1 : f e1 = some a) (hf2 : f e2 = some a) : False := by
  induction l with
  | nil => simp at h1
  | cons e t ih =>
    rw [List.filterMap_cons] at hnd
    rcases hfe : f e with _ | v
    · rw [hfe] at hnd
      rcases List.mem_cons.1 h1 with he1 | ht1
      · rw [← he1, hf1] at hfe
        exact Option.noConfusion hfe
      · rcases List.mem_cons.1 h2 with he2 | ht2
        · rw [← he2, hf2] at hfe
          exact Option.noConfusion hfe
        · exact ih hnd ht1 ht2
    · rw [hfe] at hnd
      rw [List.nodup_cons] at hnd
      rcases List.mem_cons.1 h1 with he1 | ht1
      · rcases List.mem_cons.1 h2 with he2 | ht2
        · exact hne (he1.trans he2.symm)
        · have hv : v = a := by
            rw [← he1, hf1] at hfe
            exact (Option.some.inj hfe).symm
          exact hnd.1 (hv ▸ List.mem_filterMap.2 ⟨e2, ht2, hf2⟩)
      · rcases List.mem_cons.1 h2 with he2 | ht2
        · have hv : v = a := by
            rw [← he2, hf2] at hfe
            exact (Option.some.inj hfe).symm
          exact hnd.1 (hv ▸ List.mem_filterMap.2 ⟨e1, ht1, hf1⟩)
        · exact ih hnd.2 ht1 ht2

theorem disjoint_filterMap_of_nodup {α β : Type} (f g1 g2 : α → Option β)
    (l : List α) (hnd : (l.filterMap f).Nodup)
    (h1 : ∀ e v, g1 e = some v → f e = some v)
    (h2 : ∀ e v, g2 e = some v → f e = some v)
    (hx : ∀ e, g1 e = none ∨ g2 e = none) :
    List.Disjoint (l.filterMap g1) (l.filterMap g2) := by
  intro a ha1 ha2
  obtain ⟨e1, he1, hg1⟩ := List.mem_filterMap.1 ha1
  obtain ⟨e2, he2, hg2⟩ := List.mem_filterMap.1 ha2
  have hf1 := h1 e1 a hg1
  have hf2 := h2 e2 a hg2
  have hne : e1 ≠ e2 := by
    intro he
    subst he
    rcases hx e1 with hz | hz
    · rw [hz] at hg1
      exact Option.noConfusion hg1
    · rw [hz] at hg2
      exact Option.noConfusion hg2
  exact nodup_filterMap_inj f l hnd e1 e2 a he1 he2 hne hf1 hf2

theorem pairwise_of_filterMap_nodup {α β : Type} (g : α → Option β) (l : List α)
    (hnd : (l.filterMap g).Nodup) :
    l.Pairwise (fun a b => ∀ x y, g a = some x → g b = some y → x ≠ y) := by
  induction l with
  | nil => exact List.Pairwise.nil
  | cons e t ih =>
    rw [List.filterMap_cons] at hnd
    rcases hg : g e with _ | v
    · rw [hg] at hnd
      refine List.Pairwise.cons ?_ (ih hnd)
      intro b hb x y hx hy
      rw [hg] at hx
      exact Option.noConfusion hx
    · rw [hg, List.nodup_cons] at hnd
      refine List.Pairwise.cons ?_ (ih hnd.2)
      intro b hb x y hx hy
      have hv : x = v := by
        rw [hg] at hx
        exact (Option.some.inj hx).symm
      subst hv
      intro hxy
      subst hxy
      exact hnd.1 (List.mem_filterMap.2 ⟨b, hb, hy⟩)

theorem pidNamespaceMatches_unique (w : World) (pid ns1 ns2 : String)
    (h1 : pidNamespaceMatches w pid ns1 = true)
    (h2 : pidNamespaceMatches w pid ns2 = true) : ns1 = ns2 := by
  unfold pidNamespaceMatches at h1 h2
  rcases hl : w.nsLink pid with _ | link
  · rw [hl] at h1
    exact Bool.noConfusion h1
  · rw [hl] at h1 h2
    dsimp only at h1 h2
    rcases hp : parseNsLink link with _ | nv
    · rw [hp] at h1
      exact Bool.noConfusion h1
    · rw [hp] at h1 h2
      dsimp only at h1 h2
      exact (eq_of_beq h1).symm.trans (eq_of_beq h2)

/-- The resolved PID namespace of one container, when the init process and
its namespace link resolve. -/
def nsOfContainer (w : World) (cu : String) : Option String :=
  match w.initPID cu with
  | .error _ => none
  | .ok ipid =>
    match getPIDNamespace w ipid with
    | .error _ => none
    | .ok ns => some ns

/-- The namespaces resolved for a list of containers, in order and with
multiplicity. -/
def resolvedNS (w : World) (cus : List String) : List String :=
  cus.filterMap (nsOfContainer w)

/-- The numeric values of all proc directory entries. -/
def procAtoiVals (w : World) : List Int :=
  match w.procEntries with
  | none => []
  | some entries => entries.filterMap (fun e => atoi e.name)

theorem pidsForContainer_eq_none (w : World) (m cu : String)
    (h : nsOfContainer w cu = none) : pidsForContainer w m cu = [] := by
  unfold nsOfContainer at h
  unfold pidsForContainer
  rcases hi : w.initPID cu with e | ipid
  · rfl
  · rw [hi] at h
    dsimp only at h ⊢
    rcases hn : getPIDNamespace w ipid with e | ns
    · rfl
    · rw [hn] at h
      dsimp only at h
      exact Option.noConfusion h

theorem pidsForContainer_eq_some (w : World) (m cu ns : String)
    (h : nsOfContainer w cu = some ns) :
    pidsForContainer w m cu = findPIDsInPIDNamespace w ns m := by
  unfold nsOfContainer at h
  unfold pidsForContainer
  rcases hi : w.initPID cu with e | ipid
  · rw [hi] at h
    simp at h
  · rw [hi] at h
    dsimp only at h ⊢
    rcases hn : getPIDNamespace w ipid with e | ns2
    · rw [hn] at h
      simp at h
    · rw [hn] at h
      dsimp only at h
      rw [Option.some.inj h]

theorem procEntryKeep_char (w : World) (ns comm : String) (e : ProcEntry) (v : Int)
    (h : procEntryKeep w ns comm e = some v) :
    atoi e.name = some v ∧ e.isDir = true ∧ pidNamespaceMatches w e.name ns = true := by
  unfold procEntryKeep at h
  rcases ha : atoi e.name with _ | pidInt
  · rw [ha] at h
    simp at h
  · rw [ha] at h
    dsimp only at h
    by_cases hd : (!e.isDir) = true
    · rw [if_pos hd] at h
      exact Option.noConfusion h
    · rw [if_neg hd] at h
      by_cases hn : (!pidNamespaceMatches w e.name ns) = true
      · rw [if_pos hn] at h
        exact Option.noConfusion h
      · rw [if_neg hn] at h
        by_cases hc : (comm != "*" && !commMatches w e.name comm) = true
        · rw [if_pos hc] at h
          exact Option.noConfusion h
        · rw [if_neg hc] at h
          refine ⟨h, ?_, ?_⟩
          · revert hd
            cases e.isDir <;> simp
          · revert hn
            cases pidNamespaceMatches w e.name ns <;> simp

/-- External state where two running containers of one pod share a PID
namespace: both init processes live in namespace inode 5. -/
def overlapWorld : World := {
  listPodSandbox := .ok [⟨"default", "p1", "u1"⟩],
  containers := [⟨"c1", "u1", "a", .running⟩, ⟨"c2", "u1", "b", .running⟩],
  listContainersErr := fun _ => none,
  initPID := fun cu => if cu = "c1" then .ok "10" else .ok "11",
  procEntries := some [⟨"10", true⟩],
  nsLink := fun pid => if pid = "10" || pid = "11" then some "pid:[5]" else none,
  commFile := fun _ => some "app\n" }

/-- C4 counterexample: both containers resolve to the same PID namespace, the
scan returns process 10 for each, and GetHostPIDs appends the results without
deduplication, so the final list holds a duplicate. -/
theorem claim4_counterexample :
    GetHostPIDs overlapWorld "*" "*" "*" "*" = .ok [10, 10] ∧
    ¬ ([(10 : Int), 10].Nodup) :=
  ⟨rfl, by decide⟩

/-- C4 (amended): the result list may hold duplicates when overlapping
filters reach one process through several containers; it is duplicate-free
whenever the numeric proc entries are distinct and the successfully resolved
namespaces of the matched containers are pairwise distinct. -/
theorem claim4_nodup (w : World) (sbs : List Sandbox) (n p c m : String)
    (pids : List Int)
    (hsb : w.listPodSandbox = .ok sbs)
    (hok : GetHostPIDs w n p c m = .ok pids)
    (hproc : (procAtoiVals w).Nodup)
    (hns : (resolvedNS w (collectContainerUIDs w c (filterSandboxes sbs n p))).Nodup) :
    pids.Nodup := by
  obtain ⟨_, _, _, _, hchar⟩ := claim3_error_iff w sbs n p c m hsb
  obtain ⟨hpids, _⟩ := hchar pids hok
  rw [hpids, collectPIDs_eq, List.nodup_flatten]
  constructor
  · intro l2 hl2
    obtain ⟨cu, hcu, hlcu⟩ := List.mem_map.1 hl2
    rw [← hlcu]
    rcases hns0 : nsOfContainer w cu with _ | ns
    · rw [pidsForContainer_eq_none w m cu hns0]
      exact List.nodup_nil
    · rw [pidsForContainer_eq_some w m cu ns hns0]
      unfold findPIDsInPIDNamespace
      rcases hp : w.procEntries with _ | entries
      · exact List.nodup_nil
      · dsimp only
        refine (filterMap_sublist_of_imp (fun e => atoi e.name) (procEntryKeep w ns m)
          entries (fun e v hv => (procEntryKeep_char w ns m e v hv).1)).nodup ?_
        unfold procAtoiVals at hproc
        rw [hp] at hproc
        exact hproc
  · rw [List.pairwise_map]
    have hpw := pairwise_of_filterMap_nodup (nsOfContainer w) _ hns
    refine hpw.imp ?_
    intro a b hR
    rcases hna : nsOfContainer w a with _ | nsa
    · rw [pidsForContainer_eq_none w m a hna]
      intro z hz
      simp at hz
    · rcases hnb : nsOfContainer w b with _ | nsb
      · rw [pidsForContainer_eq_none w m b hnb]
        intro z hz1 hz2
        simp at hz2
      · rw [pidsForContainer_eq_some w m a nsa hna,
          pidsForContainer_eq_some w m b nsb hnb]
        have hnsne : nsa ≠ nsb := hR nsa nsb hna hnb
        unfold findPIDsInPIDNamespace
        rcases hp : w.procEntries with _ | entries
        · intro z hz
          simp at hz
        · dsimp only
          refine disjoint_filterMap_of_nodup (fun e => atoi e.name)
            (procEntryKeep w nsa m) (procEntryKeep w nsb m) entries ?_
            (fun e v hv => (procEntryKeep_char w nsa m e v hv).1)
            (fun e v hv => (procEntryKeep_char w nsb m e v hv).1) ?_
          · unfold procAtoiVals at hproc
            rw [hp] at hproc
            exact hproc
          · intro e
            by_cases h1 : procEntryKeep w nsa m e = none
            · exact Or.inl h1
            · right
              rcases hk1 : procEntryKeep w nsa m e with _ | v1
              · exact absurd hk1 h1
              · rcases hk2 : procEntryKeep w nsb m e with _ | v2
                · rfl
                · exact absurd (pidNamespaceMatches_unique w e.name nsa nsb
                    (procEntryKeep_char w nsa m e v1 hk1).2.2
                    (procEntryKeep_char w nsb m e v2 hk2).2.2) hnsne

/-- External state with two pods whose containers live in distinct PID
namespaces holding distinct processes. -/
def distinctWorld : World := {
  listPodSandbox := .ok [⟨"default", "p1", "u1"⟩, ⟨"default", "p2", "u2"⟩],
  containers := [⟨"c1", "u1", "a", .running⟩, ⟨"c2", "u2", "b", .running⟩],
  listContainersErr := fun _ => none,
  initPID := fun cu => if cu = "c1" then .ok "30" else .ok "40",
  procEntries := some [⟨"30", true⟩, ⟨"40", true⟩],
  nsLink := fun pid => if pid = "30" then some "pid:[7]"
                       else if pid = "40" then some "pid:[8]" else none,
  commFile := fun _ => some "app\n" }

/-- C4 witness: with distinct namespaces and distinct proc entries the
resolved process list is duplicate-free. -/
theorem claim4_witness :
    GetHostPIDs distinctWorld "*" "*" "*" "*" = .ok [30, 40] ∧
    (procAtoiVals distinctWorld).Nodup ∧
    (resolvedNS distinctWorld (collectContainerUIDs distinctWorld "*"
      (filterSandboxes [⟨"default", "p1", "u1"⟩, ⟨"default", "p2", "u2"⟩] "*" "*"))).Nodup ∧
    ([(30 : Int), 40]).Nodup :=
  ⟨rfl, by decide, by decide,
   claim4_nodup distinctWorld [⟨"default", "p1", "u1"⟩, ⟨"default", "p2", "u2"⟩]
     "*" "*" "*" "*" [30, 40] rfl rfl (by decide) (by decide)⟩

/-! ## The metrics emission contract (metrics.go and setMetrics)

One gauge observation is a gauge name with the (comm, path) label pair and
the value read from the record field; the conversion of the int64 value to a
float64 gauge value at the Prometheus boundary is outside this embedding. -/

/-- One gauge-style observation as produced by setMetrics. -/
structure Observation where
  metric : String
  comm : String
  path : String
  value : Int
deriving DecidableEq

/-- setMetrics of metrics.go: the observations written for one record, in
source order, with the gauge names of metrics.go. -/
def setMetrics (comm : String) (m : SmapsMapping) : List Observation :=
  [⟨"process_smaps_size_bytes", comm, m.Path, m.SizeBytes⟩,
   ⟨"process_smaps_rss_bytes", comm, m.Path, m.RssBytes⟩,
   ⟨"process_smaps_pss_bytes", comm, m.Path, m.PssBytes⟩,
   ⟨"process_smaps_pss_dirty_bytes", comm, m.Path, m.PssDirtyBytes⟩,
   ⟨"process_smaps_shared_clean_bytes", comm, m.Path, m.SharedCleanBytes⟩,
   ⟨"process_smaps_shared_dirty_bytes", comm, m.Path, m.SharedDirtyBytes⟩,
   ⟨"process_smaps_private_clean_bytes", comm, m.Path, m.PrivateCleanBytes⟩,
   ⟨"process_smaps_private_dirty_bytes", comm, m.Path, m.PrivateDirtyBytes⟩,
   ⟨"process_smaps_referenced_bytes", comm, m.Path, m.ReferencedBytes⟩,
   ⟨"process_smaps_anonymous_bytes", comm, m.Path, m.AnonymousBytes⟩,
   ⟨"process_smaps_lazyfree_bytes", comm, m.Path, m.LazyFreeBytes⟩,
   ⟨"process_smaps_anon_hugepages_bytes", comm, m.Path, m.AnonHugePagesBytes⟩,
   ⟨"process_smaps_shmem_pmdmapped_bytes", comm, m.Path, m.ShmemPmdMappedBytes⟩,
   ⟨"process_smaps_shared_hugetlb_bytes", comm, m.Path, m.SharedHugetlbBytes⟩,
   ⟨"process_smaps_private_hugetlb_bytes", comm, m.Path, m.PrivateHugetlbBytes⟩,
   ⟨"process_smaps_swap_bytes", comm, m.Path, m.SwapBytes⟩,
   ⟨"process_smaps_swap_pss_bytes", comm, m.Path, m.SwapPssBytes⟩,
   ⟨"process_smaps_kernel_page_size_bytes", comm, m.Path, m.KernelPageSizeBytes⟩,
   ⟨"process_smaps_mmu_page_size_bytes", comm, m.Path, m.MMUPageSizeBytes⟩,
   ⟨"process_smaps_locked_bytes", comm, m.Path, m.LockedBytes⟩]

/-- The byte-count fields of a record, in struct declaration order. -/
def smapsByteFields (m : SmapsMapping) : List Int :=
  [m.SizeBytes, m.RssBytes, m.PssBytes, m.PssDirtyBytes, m.SharedCleanBytes,
   m.SharedDirtyBytes, m.PrivateCleanBytes, m.PrivateDirtyBytes,
   m.ReferencedBytes, m.AnonymousBytes, m.LazyFreeBytes, m.AnonHugePagesBytes,
   m.ShmemPmdMappedBytes, m.SharedHugetlbBytes, m.PrivateHugetlbBytes,
   m.SwapBytes, m.SwapPssBytes, m.KernelPageSizeBytes, m.MMUPageSizeBytes,
   m.LockedBytes]

/-- C9 counterexample: a record carries twenty byte-count fields and
setMetrics writes twenty observations per (display-name, path) pair, not
eighteen as claimed. -/
theorem claim9_counterexample :
    (setMetrics "c" (mkHeaderMapping ⟨"0-1", "rw-p", "0", "00:00", "0", "/x"⟩)).length
      = 20 ∧
    (setMetrics "c" (mkHeaderMapping ⟨"0-1", "rw-p", "0", "00:00", "0", "/x"⟩)).length
      ≠ 18 ∧
    (smapsByteFields (mkHeaderMapping ⟨"0-1", "rw-p", "0", "00:00", "0", "/x"⟩)).length
      ≠ 18 := by
  refine ⟨rfl, ?_, ?_⟩ <;> decide

/-- C9 (amended: twenty, not eighteen): every mapping record carries exactly
twenty byte-count fields, and setMetrics hands the metrics-exposition layer
exactly twenty gauge observations per record, every one labelled with the
(display-name, path) pair of that record. -/
theorem claim9_twenty_fields (comm : String) (m : SmapsMapping) :
    (setMetrics comm m).length = 20 ∧
    (smapsByteFields m).length = 20 ∧
    (setMetrics comm m).map Observation.comm = List.replicate 20 comm ∧
    (setMetrics comm m).map Observation.path = List.replicate 20 m.Path :=
  ⟨rfl, rfl, rfl, rfl⟩
